import Mathlib

/-!
Verification development for the iwac-dashboard co-occurrence graph engine.

The repository's Python scripts (`scripts/spatial/build_networks.py`,
`scripts/spatial/build_spatial_networks.py`, `scripts/generate_topic_network.py`,
`scripts/generate_references_subject_cooccurrence.py`, `scripts/generate_cooccurrence.py`)
are shallowly embedded below.  Modelling conventions:

* Python `dict`s preserve insertion order; they are modelled as association lists
  in insertion order, with in-place update on existing keys and append for new keys.
* Python `set`s have an unspecified iteration order.  Wherever the source iterates over
  a set, the embedding either takes the iteration order as an explicit list parameter
  (`usedOrder`, `subjOrder`) or models the set as an insertion-ordered duplicate-free
  list when no theorem depends on the order.
* Python `float` arithmetic (topic probabilities, normalised weights, means) is modelled
  over `ℚ`; `round(x, k)` is modelled by `roundQ k` (round to nearest); all concrete
  inputs used in witnesses and counterexamples are chosen so that the rounding is exact
  and the float/rational distinction cannot matter.
* Python string comparison (`<` on `str`, comparing Unicode code points position by
  position) is modelled by the executable comparator `strLtB`; `str.split`, `str.strip`
  and `str.lower` are modelled by the executable `splitChar`, `trimS` and `lowerS`
  (ASCII-faithful; all strings appearing in concrete inputs are ASCII).
* Wall-clock timestamps (`datetime.utcnow()` / `datetime.now()`) are modelled as an
  explicit `String` parameter flowing into the `generatedAt` meta field.
-/

namespace IWAC

/-- First-match association-list lookup (Python `dict.get` / `d[k]` access order). -/
def alookup {α : Type} [DecidableEq α] {β : Type} (k : α) : List (α × β) → Option β
  | [] => none
  | (k', v) :: rest => if k' = k then some v else alookup k rest

/-- Lookup with a default value (Python `dict.get(k, d)`). -/
def alookupD {α : Type} [DecidableEq α] {β : Type} (k : α) (l : List (α × β)) (d : β) : β :=
  (alookup k l).getD d

/-- Python dict update `d[k] = f(d[k]) if k in d else init`: mutate in place when the key
exists, append at the end otherwise (insertion-order semantics of CPython dicts). -/
def updAssoc {α : Type} [DecidableEq α] {β : Type} (k : α) (init : β) (f : β → β) :
    List (α × β) → List (α × β)
  | [] => [(k, init)]
  | (k', v) :: rest =>
      if k' = k then (k', f v) :: rest else (k', v) :: updAssoc k init f rest

/-- Python `defaultdict(int)` increment `d[k] += 1`. -/
def bumpAssoc {α : Type} [DecidableEq α] (k : α) (l : List (α × ℕ)) : List (α × ℕ) :=
  updAssoc k 1 (· + 1) l

/-- Overwriting dict assignment `d[k] = v` (replace in place, else append). -/
def assocSet {α : Type} [DecidableEq α] {β : Type} (k : α) (v : β) :
    List (α × β) → List (α × β)
  | [] => [(k, v)]
  | (k', v') :: rest =>
      if k' = k then (k', v) :: rest else (k', v') :: assocSet k v rest

/-- Python set insertion `s.add(x)` on a set modelled as an insertion-ordered
duplicate-free list. -/
def setInsert (x : String) (l : List String) : List String :=
  if x ∈ l then l else l ++ [x]

/-- Lexicographic strict comparison of character lists by code point — the semantics of
Python's `<` on `str` (and of Lean's `String` order, stated executably). -/
def charsLtB : List Char → List Char → Bool
  | [], [] => false
  | [], _ :: _ => true
  | _ :: _, [] => false
  | c :: cs, d :: ds =>
      if c.toNat < d.toNat then true
      else if d.toNat < c.toNat then false
      else charsLtB cs ds

/-- Python `a < b` on strings. -/
def strLtB (a b : String) : Bool := charsLtB a.data b.data

/-- Python `a <= b` on strings (total order: `¬ (b < a)`). -/
def strLe (a b : String) : Prop := strLtB b a = false

instance (a b : String) : Decidable (strLe a b) := by unfold strLe; infer_instance

/-- Canonical (sorted) unordered pair: `(a, b) if a < b else (b, a)`. -/
def sortPair (a b : String) : String × String :=
  if strLtB a b then (a, b) else (b, a)

/-- Python `s.split(sep)` for a one-character separator: split at every occurrence,
never collapsing empty fields (`"" → [""]`). -/
def splitChar (sep : Char) : List Char → List (List Char)
  | [] => [[]]
  | c :: cs =>
      let r := splitChar sep cs
      if c = sep then [] :: r
      else
        match r with
        | [] => [[c]]
        | g :: gs => (c :: g) :: gs

/-- Python `s.split(sep)` returning strings. -/
def splitS (sep : Char) (s : String) : List String :=
  (splitChar sep s.data).map (fun l => String.mk l)

/-- Python `s.strip()` (whitespace on both ends). -/
def trimS (s : String) : String :=
  String.mk (((s.data.dropWhile Char.isWhitespace).reverse.dropWhile
    Char.isWhitespace).reverse)

/-- Python `s.lower()` (ASCII-faithful). -/
def lowerS (s : String) : String := String.mk (s.data.map Char.toLower)

/-- All index pairs `i < j` of a list, in the order produced by the Python idiom
`for i in range(len(l)): for j in range(i+1, len(l))`. -/
def ltPairs {α : Type} : List α → List (α × α)
  | [] => []
  | x :: rest => rest.map (fun y => (x, y)) ++ ltPairs rest

/-- Executable floor of a rational. -/
def qfloor (x : ℚ) : ℤ := Int.fdiv x.num (x.den : ℤ)

/-- `round(x, k)` on exact rationals (round to nearest; every concrete value this file
evaluates it on is exactly representable, so the tie-breaking mode is irrelevant). -/
def roundQ (k : ℕ) (x : ℚ) : ℚ :=
  ((qfloor (x * (10 : ℚ) ^ k + 1 / 2) : ℤ) : ℚ) / (10 : ℚ) ^ k

/-- `min` over a list of naturals; Python's `min` is only applied to non-empty lists,
the `[]` case is unreachable there. -/
def natMin : List ℕ → ℕ
  | [] => 0
  | x :: xs => xs.foldl min x

/-- `max` over a list of naturals. -/
def natMax : List ℕ → ℕ
  | [] => 0
  | x :: xs => xs.foldl max x

/-- `min` over a list of rationals (non-empty in all uses). -/
def ratMin : List ℚ → ℚ
  | [] => 0
  | x :: xs => xs.foldl min x

/-- `max` over a list of rationals (non-empty in all uses). -/
def ratMax : List ℚ → ℚ
  | [] => 0
  | x :: xs => xs.foldl max x

/-- `statistics.fmean` over naturals, as an exact rational. -/
def fmeanN (l : List ℕ) : ℚ :=
  ((l.map (fun n => (n : ℚ))).sum) / (l.length : ℚ)

/-- `statistics.fmean` over rationals. -/
def fmeanQ (l : List ℚ) : ℚ := l.sum / (l.length : ℚ)

end IWAC

/-! ## `scripts/spatial/build_networks.py` -/

namespace BuildNetworks

open IWAC

/-- One value of the `node_info` dict (lines 65–86): per-node id/type/label/count. -/
structure NodeInfo where
  id : String
  ntype : String
  label : String
  count : ℕ
  deriving DecidableEq, Repr

/-- One value of the `edge_acc` dict during accumulation. -/
structure EdgeRec where
  source : String
  target : String
  etype : String
  weight : ℕ
  articleIds : List String
  deriving DecidableEq, Repr

/-- The `edge_acc` dict, keyed by the canonical `(source, target)` pair. -/
abbrev EdgeAcc := List ((String × String) × EdgeRec)

/-- `accumulate_edge` (lines 130–147): for each cross-type node pair, create or bump the
canonical edge record; the contributing article id is appended only when it differs
from the last appended id. -/
def accumulate_edge (aid t1 t2 : String) (aNodes bNodes : List String) (acc : EdgeAcc) :
    EdgeAcc :=
  aNodes.foldl (fun acc n1 =>
    bNodes.foldl (fun acc n2 =>
      let st := sortPair n1 n2
      updAssoc st
        { source := st.1, target := st.2, etype := t1 ++ "-" ++ t2,
          weight := 1, articleIds := [aid] }
        (fun r =>
          { r with weight := r.weight + 1,
                   articleIds :=
                     if r.articleIds = [] ∨ ¬ r.articleIds.getLast? = some aid then
                       r.articleIds ++ [aid]
                     else r.articleIds })
        acc) acc) acc

/-- Same-type pair accumulation (lines 159–181): all `i < j` pairs of the sorted node
set of one type within one article. -/
def sameTypePairs (aid t : String) (nodeset : List String) (acc : EdgeAcc) : EdgeAcc :=
  if nodeset.length < 2 then acc
  else
    (ltPairs (List.insertionSort strLe nodeset)).foldl
      (fun acc p =>
        updAssoc p
          { source := p.1, target := p.2, etype := t ++ "-" ++ t,
            weight := 1, articleIds := [aid] }
          (fun r =>
            { r with weight := r.weight + 1,
                     articleIds :=
                       if ¬ r.articleIds.getLast? = some aid then r.articleIds ++ [aid]
                       else r.articleIds })
          acc) acc

/-- Main accumulation loop (lines 149–181).  `articles` models `article_to_entities`:
article id → (type → node-id set); the inner lists carry the set-iteration order. -/
def accumulateAll (articles : List (String × List (String × List String)))
    (typePairs : List (String × String)) (noCrossOnly : Bool) : EdgeAcc :=
  articles.foldl (fun acc a =>
    let acc :=
      typePairs.foldl (fun acc tp =>
        match alookup tp.1 a.2, alookup tp.2 a.2 with
        | some la, some lb =>
            if la ≠ [] ∧ lb ≠ [] then accumulate_edge a.1 tp.1 tp.2 la lb acc else acc
        | _, _ => acc) acc
    if noCrossOnly then a.2.foldl (fun acc tb => sameTypePairs a.1 tb.1 tb.2 acc) acc
    else acc) []

/-- Pruning (line 184): keep edges with `weight >= WEIGHT_MIN`. -/
def prunedEdges (acc : EdgeAcc) (weightMin : ℤ) : List EdgeRec :=
  (acc.map Prod.snd).filter (fun e => weightMin ≤ (e.weight : ℤ))

/-- `edges.sort(key=weight, reverse=True)` (line 185): stable descending sort. -/
def sortEdges (es : List EdgeRec) : List EdgeRec :=
  List.insertionSort (fun e1 e2 => e2.weight ≤ e1.weight) es

/-- Degree accumulation (lines 196–202), evaluated pointwise: the dict fold
`degree[e.source] += 1; degree[e.target] += 1` at key `nid`. -/
def degreeAt (es : List EdgeRec) (nid : String) : ℕ :=
  es.foldl (fun d e =>
    d + (if e.source = nid then 1 else 0) + (if e.target = nid then 1 else 0)) 0

/-- Strength accumulation (lines 196–202), evaluated pointwise. -/
def strengthAt (es : List EdgeRec) (nid : String) : ℕ :=
  es.foldl (fun s e =>
    s + (if e.source = nid then e.weight else 0) + (if e.target = nid then e.weight else 0)) 0

/-- `max_w` (lines 209–213): maximum retained weight, `1` when no edge survives. -/
def maxWeight (es : List EdgeRec) : ℕ :=
  match es with
  | [] => 1
  | e :: rest => rest.foldl (fun m e' => max m e'.weight) e.weight

/-- `min_w` (lines 209–213): minimum retained weight, `1` when no edge survives. -/
def minWeight (es : List EdgeRec) : ℕ :=
  match es with
  | [] => 1
  | e :: rest => rest.foldl (fun m e' => min m e'.weight) e.weight

/-- Serialized edge, after `weightNorm` is attached (lines 214–215). -/
structure EdgeOut where
  source : String
  target : String
  etype : String
  weight : ℕ
  weightNorm : ℚ
  articleIds : List String
  deriving DecidableEq, Repr

/-- Line 215: `e['weightNorm'] = round(e['weight'] / max_w, 6) if max_w else 0`. -/
def mkEdgeOut (maxw : ℕ) (e : EdgeRec) : EdgeOut :=
  { source := e.source, target := e.target, etype := e.etype, weight := e.weight,
    weightNorm := if maxw ≠ 0 then roundQ 6 ((e.weight : ℚ) / (maxw : ℚ)) else 0,
    articleIds := e.articleIds }

/-- Serialized node (lines 193–220). -/
structure Node where
  id : String
  ntype : String
  label : String
  count : ℕ
  degree : ℕ
  strength : ℕ
  labelPriority : ℕ
  deriving DecidableEq, Repr

/-- Lines 193–206: nodes are `node_info[nid]` for `nid` in the `used_ids` set
(`usedOrder` carries the set-iteration order), with degree/strength attached. -/
def nodesFor (nodeInfo : List (String × NodeInfo)) (es : List EdgeRec)
    (usedOrder : List String) : List Node :=
  usedOrder.filterMap (fun nid =>
    (alookup nid nodeInfo).map (fun ni =>
      { id := ni.id, ntype := ni.ntype, label := ni.label, count := ni.count,
        degree := degreeAt es nid, strength := strengthAt es nid, labelPriority := 0 }))

/-- Label-priority score (line 218): `x['degree'] * 3 + x['count']`. -/
def score (n : Node) : ℕ := n.degree * 3 + n.count

/-- Lines 217–220: stable descending sort by score, then `labelPriority = idx + 1`. -/
def rankNodes (ns : List Node) : List Node :=
  ((List.insertionSort (fun a b => score b ≤ score a) ns).enum).map
    (fun p => { p.2 with labelPriority := p.1 + 1 })

/-- The `meta` object (lines 231–252). -/
structure MetaStats where
  generatedAt : String
  totalNodes : ℕ
  totalEdges : ℕ
  supportedTypes : List String
  weightMinConfigured : ℤ
  weightMinActual : ℕ
  weightMax : ℕ
  degreeMin : ℕ
  degreeMax : ℕ
  degreeMean : ℚ
  strengthMin : ℕ
  strengthMax : ℕ
  strengthMean : ℚ
  topLabelCount : ℕ
  typePairs : List (String × String)
  labelPriorityTop : List String
  deriving DecidableEq, Repr

/-- The serialized output object (lines 228–253). -/
structure Output where
  nodes : List Node
  edges : List EdgeOut
  meta : MetaStats
  deriving DecidableEq, Repr

/-- The whole pipeline of `build_networks.py` after loading/indexing: accumulate,
prune, sort, derive node metrics, normalise, rank, and emit `{nodes, edges, meta}`.
`utcNowIso` models `datetime.utcnow().isoformat()` (line 232), `usedOrder` the
iteration order of the `used_ids` set (line 193). -/
def buildNetworks (articles : List (String × List (String × List String)))
    (nodeInfo : List (String × NodeInfo)) (typePairs : List (String × String))
    (noCrossOnly : Bool) (weightMin : ℤ) (topLabels : ℕ)
    (usedOrder : List String) (utcNowIso : String) : Output :=
  let edges := sortEdges (prunedEdges (accumulateAll articles typePairs noCrossOnly) weightMin)
  let maxw := maxWeight edges
  let minw := minWeight edges
  let edgesOut := edges.map (mkEdgeOut maxw)
  let nodesR := rankNodes (nodesFor nodeInfo edges usedOrder)
  let degVals := if nodesR.map (·.degree) = [] then [0] else nodesR.map (·.degree)
  let strVals := if nodesR.map (·.strength) = [] then [0] else nodesR.map (·.strength)
  { nodes := nodesR
    edges := edgesOut
    meta :=
      { generatedAt := utcNowIso ++ "Z"
        totalNodes := nodesR.length
        totalEdges := edgesOut.length
        supportedTypes := ["person", "organization", "event", "subject", "location"]
        weightMinConfigured := weightMin
        weightMinActual := minw
        weightMax := maxw
        degreeMin := natMin degVals
        degreeMax := natMax degVals
        degreeMean := roundQ 3 (fmeanN degVals)
        strengthMin := natMin strVals
        strengthMax := natMax strVals
        strengthMean := roundQ 3 (fmeanN strVals)
        topLabelCount := topLabels
        typePairs := typePairs
        labelPriorityTop := (nodesR.take topLabels).map (·.id) } }

/-- The default `TYPE_PAIRS` configuration (lines 40–46). -/
def defaultTypePairs : List (String × String) :=
  [("person", "organization"), ("event", "location"), ("person", "event"),
   ("organization", "event"), ("subject", "event")]

end BuildNetworks

/-! ## `scripts/generate_topic_network.py` -/

namespace TopicNetwork

open IWAC

/-- One entry of `topics/summary.json` (`id`, `label`, `count`). -/
structure TopicSummary where
  tid : ℤ
  label : String
  count : ℕ
  deriving DecidableEq, Repr

/-- One entry of a topic file's `docs` list. -/
structure Doc where
  topicProb : ℚ
  url : String
  title : String
  country : String
  newspaper : String
  pubDate : String
  deriving DecidableEq, Repr

/-- Output node: topic nodes and article nodes carry different fields
(heterogeneous dicts in the source). -/
inductive TNode where
  | topic (id label : String) (count : ℕ) (keywords : List String)
      (degree : ℕ) (strength : ℚ) (labelPriority : ℕ)
  | article (id label : String) (topicProb : ℚ)
      (country newspaper pubDate url : String) (topicId : ℤ)
      (degree : ℕ) (strength : ℚ) (labelPriority : ℕ)
  deriving DecidableEq, Repr

/-- The node's `id` field. -/
def TNode.nid : TNode → String
  | .topic i _ _ _ _ _ _ => i
  | .article i _ _ _ _ _ _ _ _ _ _ => i

/-- The node's `degree` field. -/
def TNode.degree : TNode → ℕ
  | .topic _ _ _ _ d _ _ => d
  | .article _ _ _ _ _ _ _ _ d _ _ => d

/-- The node's `labelPriority` field. -/
def TNode.labelPriority : TNode → ℕ
  | .topic _ _ _ _ _ _ p => p
  | .article _ _ _ _ _ _ _ _ _ _ p => p

/-- Output edge. -/
structure TEdge where
  source : String
  target : String
  weight : ℚ
  weightNorm : ℚ
  deriving DecidableEq, Repr

/-- `extract_keywords` (lines 79–89). -/
def extractKeywords (label : String) : List String :=
  if label = "" ∨ label = "Outlier" then []
  else
    (((label.splitOn " - ").map (fun kw => (kw.trim).replace "_" " ")).filter
      (fun kw => kw ≠ "")).take 5

/-- Line 176: `article:{url.split('/')[-1]}` when the url contains `/`, else
`article:{hash(url)}` (`pyHash` models CPython's process-dependent string hash). -/
def articleIdOf (pyHash : String → ℤ) (url : String) : String :=
  if '/' ∈ url.data then "article:" ++ ((splitS '/' url).getLastD "")
  else "article:" ++ toString (pyHash url)

/-- State threaded through the per-topic document loop (lines 162–215). -/
structure DocState where
  seen : List String
  articleNodes : List TNode
  edges : List TEdge
  deg : ℕ
  strengthSum : ℚ
  probs : List ℚ
  deriving Repr

/-- The document loop body for one topic (lines 163–213). -/
def processDocs (pyHash : String → ℤ) (minProb : ℚ) (tid : ℤ) (topicNodeId : String)
    (docsSorted : List Doc) (seen0 : List String) : DocState :=
  docsSorted.foldl (fun st d =>
    if d.topicProb < minProb then st
    else if d.url = "" then st
    else
      let aId := articleIdOf pyHash d.url
      let isNew := ¬ aId ∈ st.seen
      { seen := if isNew then st.seen ++ [aId] else st.seen
        articleNodes :=
          if isNew then
            st.articleNodes ++
              [TNode.article aId d.title (roundQ 4 d.topicProb) d.country d.newspaper
                d.pubDate d.url tid 1 (roundQ 4 d.topicProb) 0]
          else st.articleNodes
        edges := st.edges ++ [{ source := topicNodeId, target := aId,
                                weight := roundQ 4 d.topicProb, weightNorm := 0 }]
        deg := st.deg + 1
        strengthSum := st.strengthSum + d.topicProb
        probs := st.probs ++ [d.topicProb] })
    { seen := seen0, articleNodes := [], edges := [], deg := 0, strengthSum := 0, probs := [] }

/-- State threaded through the topic loop. -/
structure TState where
  nodes : List TNode
  edges : List TEdge
  seen : List String
  probs : List ℚ
  topicCount : ℕ
  articleCount : ℕ
  deriving Repr

/-- Output `meta` (lines 244–255). -/
structure TMeta where
  generatedAt : String
  totalNodes : ℕ
  totalTopics : ℕ
  totalArticles : ℕ
  totalEdges : ℕ
  articlesPerTopic : ℕ
  minTopicProb : ℚ
  avgTopicProb : ℚ
  weightMin : ℚ
  weightMax : ℚ
  deriving DecidableEq, Repr

/-- Output object. -/
structure TOutput where
  nodes : List TNode
  edges : List TEdge
  meta : TMeta
  deriving DecidableEq, Repr

/-- `build_topic_network` (lines 92–256), from the loaded summary and per-topic docs.
Returns `none` when the summary is empty (the source prints an error and returns).
The topic node is appended before its articles; since the source mutates the topic-node
dict aliased from `nodes`, it is emitted here directly with its final degree/strength. -/
def build_topic_network (pyHash : String → ℤ) (articlesPerTopic : ℕ) (minProb : ℚ)
    (topicsSummary : List TopicSummary) (topicDocs : List (ℤ × List Doc))
    (nowIso : String) : Option TOutput :=
  if topicsSummary = [] then none
  else
    let st := topicsSummary.foldl (fun (st : TState) ts =>
      if ts.tid = -1 then st
      else
        match alookup ts.tid topicDocs with
        | none => st
        | some docs =>
          let topicNodeId := "topic:" ++ toString ts.tid
          let docsSorted :=
            (List.insertionSort (fun d1 d2 : Doc => d2.topicProb ≤ d1.topicProb) docs).take
              articlesPerTopic
          let r := processDocs pyHash minProb ts.tid topicNodeId docsSorted st.seen
          let topicNode :=
            TNode.topic topicNodeId ts.label ts.count (extractKeywords ts.label)
              r.deg (roundQ 2 r.strengthSum) 1
          { nodes := st.nodes ++ [topicNode] ++ r.articleNodes
            edges := st.edges ++ r.edges
            seen := r.seen
            probs := st.probs ++ r.probs
            topicCount := st.topicCount + 1
            articleCount := st.articleCount + r.articleNodes.length })
      { nodes := [], edges := [], seen := [], probs := [], topicCount := 0, articleCount := 0 }
    let edges :=
      if st.edges = [] then st.edges
      else
        let maxw := ratMax (st.edges.map (·.weight))
        let minw := ratMin (st.edges.map (·.weight))
        st.edges.map (fun e =>
          { e with weightNorm :=
              if minw < maxw then roundQ 4 ((e.weight - minw) / (maxw - minw)) else 1 })
    some
      { nodes := st.nodes
        edges := edges
        meta :=
          { generatedAt := nowIso
            totalNodes := st.nodes.length
            totalTopics := st.topicCount
            totalArticles := st.articleCount
            totalEdges := st.edges.length
            articlesPerTopic := articlesPerTopic
            minTopicProb := minProb
            avgTopicProb := roundQ 4 (if st.probs = [] then 0 else fmeanQ st.probs)
            weightMin := if st.probs = [] then 0 else roundQ 4 (ratMin st.probs)
            weightMax := if st.probs = [] then 1 else roundQ 4 (ratMax st.probs) } }

end TopicNetwork

/-! ## `scripts/generate_references_subject_cooccurrence.py` -/

namespace SubjectCooc

open IWAC

/-- One reference record, after the harness's field resolution: `subject` is the raw
pipe-separated subject field (absent → `none`), `pubId` models
`str(record.get("pub_id", record.get("o:id", "")))`. -/
structure Record where
  subject : Option String
  pubId : String
  deriving DecidableEq, Repr

/-- `iwac_utils.parse_pipe_separated` (lines 338–367) on a string-or-missing value. -/
def parse_pipe_separated (v : Option String) : List String :=
  match v with
  | none => []
  | some s =>
      if trimS s = "" then []
      else ((splitS '|' (trimS s)).map trimS).filter (fun x => x ≠ "")

/-- Lines 50–66: build `ref_subjects` (reference → subject set) and `subject_refs`
(subject → reference set); sets are modelled as insertion-ordered duplicate-free lists
(`setInsert`), which is adequate because every later use either sorts them or only
takes their size. -/
def buildIndexes (records : List Record) :
    List (String × List String) × List (String × List String) :=
  records.foldl (fun ms r =>
    let subjects := parse_pipe_separated r.subject
    if subjects.length < 2 then ms
    else if r.pubId = "" then ms
    else
      subjects.foldl (fun ms subj =>
        (updAssoc r.pubId [subj] (setInsert subj) ms.1,
         updAssoc subj [r.pubId] (setInsert r.pubId) ms.2)) ms) ([], [])

/-- One value of the `edge_weights` dict. -/
structure EW where
  weight : ℕ
  pubIds : List String
  deriving DecidableEq, Repr

/-- Lines 71–87: all `i < j` pairs of each reference's sorted subject list, with a
weight counter and a contributing-reference set per canonical pair. -/
def edgeWeights (refSubjects : List (String × List String)) :
    List ((String × String) × EW) :=
  refSubjects.foldl (fun ew pr =>
    (ltPairs (List.insertionSort strLe pr.2)).foldl
      (fun ew key =>
        updAssoc key { weight := 1, pubIds := [pr.1] }
          (fun d => { weight := d.weight + 1, pubIds := setInsert pr.1 d.pubIds }) ew)
      ew) []

/-- Output node. -/
structure SNode where
  id : String
  ntype : String
  label : String
  count : ℕ
  degree : ℕ
  strength : ℕ
  labelPriority : ℕ
  deriving DecidableEq, Repr

/-- Output edge. -/
structure SEdge where
  source : String
  target : String
  etype : String
  weight : ℕ
  weightNorm : ℚ
  articleIds : List String
  deriving DecidableEq, Repr

/-- Output meta. -/
structure SMeta where
  generatedAt : String
  totalNodes : ℕ
  totalEdges : ℕ
  supportedTypes : List String
  weightMinConfigured : ℕ
  weightMinActual : ℕ
  weightMax : ℕ
  degreeMin : ℕ
  degreeMax : ℕ
  degreeMean : ℚ
  strengthMin : ℕ
  strengthMax : ℕ
  strengthMean : ℚ
  topLabelCount : ℕ
  typePairs : List (String × String)
  labelPriorityTop : List String
  deriving DecidableEq, Repr

/-- Output object. -/
structure SOutput where
  nodes : List SNode
  edges : List SEdge
  meta : SMeta
  deriving DecidableEq, Repr

/-- The empty-result object returned when no pair co-occurs (lines 89–107). -/
def emptySOutput : SOutput :=
  { nodes := []
    edges := []
    meta :=
      { generatedAt := ""
        totalNodes := 0
        totalEdges := 0
        supportedTypes := ["subject"]
        weightMinConfigured := 1
        weightMinActual := 0
        weightMax := 0
        degreeMin := 0
        degreeMax := 0
        degreeMean := 0
        strengthMin := 0
        strengthMax := 0
        strengthMean := 0
        topLabelCount := 50
        typePairs := [("subject", "subject")]
        labelPriorityTop := [] } }

/-- Lines 110–118: per-subject degree and strength accumulated over `edge_weights`
(defaultdicts, insertion order). -/
def degStr (ew : List ((String × String) × EW)) :
    List (String × ℕ) × List (String × ℕ) :=
  ew.foldl (fun ms p =>
    (updAssoc p.1.2 1 (· + 1) (updAssoc p.1.1 1 (· + 1) ms.1),
     updAssoc p.1.2 p.2.weight (· + p.2.weight)
       (updAssoc p.1.1 p.2.weight (· + p.2.weight) ms.2))) ([], [])

/-- `generate_subject_cooccurrence` (lines 40–199).  `mkId` models `make_subject_id`
(an md5-based stable id); `subjOrder` carries the iteration order of the
`all_subjects` set (line 120), `nowIso` models `datetime.now().isoformat()`. -/
def generate_subject_cooccurrence (mkId : String → String) (subjOrder : List String)
    (records : List Record) (nowIso : String) : SOutput :=
  let idx := buildIndexes records
  let ew := edgeWeights idx.1
  if ew = [] then emptySOutput
  else
    let dm := (degStr ew).1
    let sm := (degStr ew).2
    let sortedSubjects :=
      List.insertionSort (fun a b : String => alookupD b sm 0 ≤ alookupD a sm 0) subjOrder
    let priority := sortedSubjects.enum.map (fun p => (p.2, p.1))
    let nodes := subjOrder.map (fun subj =>
      { id := mkId subj
        ntype := "subject"
        label := subj
        count := (alookupD subj idx.2 []).length
        degree := alookupD subj dm 0
        strength := alookupD subj sm 0
        labelPriority := alookupD subj priority 0 : SNode })
    let maxWeight := natMax (ew.map (·.2.weight))
    let edges0 := ew.map (fun p =>
      { source := mkId p.1.1
        target := mkId p.1.2
        etype := "subject-subject"
        weight := p.2.weight
        weightNorm := if 0 < maxWeight then (p.2.weight : ℚ) / (maxWeight : ℚ) else 0
        articleIds := p.2.pubIds.take 100 : SEdge })
    let edges := List.insertionSort (fun a b : SEdge => b.weight ≤ a.weight) edges0
    let degrees := dm.map (·.2)
    let strengths := sm.map (·.2)
    { nodes := nodes
      edges := edges
      meta :=
        { generatedAt := nowIso
          totalNodes := nodes.length
          totalEdges := edges.length
          supportedTypes := ["subject"]
          weightMinConfigured := 1
          weightMinActual := natMin (ew.map (·.2.weight))
          weightMax := maxWeight
          degreeMin := natMin degrees
          degreeMax := natMax degrees
          degreeMean := if degrees ≠ [] then roundQ 2 (fmeanN degrees) else 0
          strengthMin := natMin strengths
          strengthMax := natMax strengths
          strengthMean := if strengths ≠ [] then roundQ 2 (fmeanN strengths) else 0
          topLabelCount := min 50 nodes.length
          typePairs := [("subject", "subject")]
          labelPriorityTop := (nodes.take 50).map (·.label) } }

end SubjectCooc

/-! ## `scripts/spatial/build_spatial_networks.py` -/

namespace Spatial

open IWAC

/-- Lines 122–124: `node_by_name`, lowercased label → node id (dict comprehension:
later nodes overwrite earlier ones with the same lowercased label). -/
def nodeByName (nodes : List (String × String)) : List (String × String) :=
  nodes.foldl (fun m n => assocSet (lowerS n.2) n.1 m) []

/-- Lines 132–142: split the `spatial` field on `|`, strip, drop empties, keep the ids
of names that match a coordinate-bearing node. -/
def parseLocs (nbn : List (String × String)) (spatial : String) : List String :=
  (((splitS '|' spatial).map trimS).filter (fun nm => nm ≠ "")).filterMap
    (fun nm => alookup (lowerS nm) nbn)

/-- Lines 126–146: `article_to_locations`, keeping only articles whose spatial field
resolves to more than one location occurrence. -/
def articleToLocations (nbn : List (String × String))
    (articles : List (String × String)) : List (String × List String) :=
  articles.foldl (fun m a =>
    if a.2 = "" then m
    else
      let locs := parseLocs nbn a.2
      if 1 < locs.length then assocSet a.1 locs m else m) []

/-- One value of the spatial `edge_weights` dict. -/
structure SpEdge where
  source : String
  target : String
  weight : ℕ
  articleIds : List String
  deriving DecidableEq, Repr

/-- Lines 150–168: all `i < j` pairs of each article's location-occurrence *list*
(duplicates included), keyed by the sorted pair; the article id is appended with no
deduplication. -/
def spatialEdgeAcc (atl : List (String × List String)) :
    List ((String × String) × SpEdge) :=
  atl.foldl (fun ew a =>
    (ltPairs a.2).foldl (fun ew pr =>
      let key := sortPair pr.1 pr.2
      updAssoc key { source := key.1, target := key.2, weight := 1, articleIds := [a.1] }
        (fun r => { r with weight := r.weight + 1, articleIds := r.articleIds ++ [a.1] })
        ew) ew) []

end Spatial

/-! ## `scripts/generate_cooccurrence.py` -/

namespace Cooccurrence

open IWAC

/-- `compute_cooccurrence_in_article` (lines 175–200), taking the result of
`find_term_positions` (the term-family → token-position dict) as input: for every
unordered pair of distinct families, count all position pairs within the window. -/
def computeCooccurrence (window : ℕ) (termPositions : List (String × List ℕ)) :
    List ((String × String) × ℕ) :=
  if termPositions.length < 2 then []
  else
    (ltPairs termPositions).foldl (fun acc fp =>
      fp.1.2.foldl (fun acc p1 =>
        fp.2.2.foldl (fun acc p2 =>
          if Nat.dist p1 p2 ≤ window then bumpAssoc (sortPair fp.1.1 fp.2.1) acc else acc)
          acc) acc) []

/-- Spec-side definition (claim C5's wording): the number of position pairs
`(posA, posB)` with `|posA − posB| ≤ W`. -/
def specWindowPairCount (window : ℕ) (psA psB : List ℕ) : ℕ :=
  (psA.map (fun a => psB.countP (fun b => Nat.dist a b ≤ window))).sum

/-- `_build_matrix_data` output (lines 432–478). -/
structure MatrixData where
  terms : List String
  matrix : List (List ℕ)
  termCounts : List (String × ℕ)
  maxCooccurrence : ℕ
  deriving DecidableEq, Repr

/-- Line 441: `sorted([t for t in term_families if term_counts.get(t, 0) > 0])`. -/
def activeTermsOf (termFamilies : List String) (termCounts : List (String × ℕ)) :
    List String :=
  List.insertionSort strLe (termFamilies.filter (fun t => 0 < alookupD t termCounts 0))

/-- Lines 456–464: one matrix cell — diagonal holds the term's own count, off-diagonal
the co-occurrence count of the sorted term pair. -/
def matrixEntryOf (activeTerms : List String)
    (cooccurrenceMatrix : List ((String × String) × ℕ))
    (termCounts : List (String × ℕ)) (i j : ℕ) : ℕ :=
  let t1 := activeTerms.getD i ""
  let t2 := activeTerms.getD j ""
  if i = j then alookupD t1 termCounts 0
  else alookupD (sortPair t1 t2) cooccurrenceMatrix 0

/-- Lines 466–471: the running-maximum scan over all off-diagonal cells. -/
def maxCoOf (matrix : List (List ℕ)) (n : ℕ) : ℕ :=
  (List.range n).foldl (fun m i =>
    (List.range n).foldl (fun m j =>
      if i ≠ j ∧ m < (matrix.getD i []).getD j 0 then (matrix.getD i []).getD j 0
      else m) m) 0

/-- `_build_matrix_data` (lines 432–478): square matrix over the alphabetically
sorted active terms, diagonal = own term count, off-diagonal = co-occurrence count
of the sorted pair, plus the maximum off-diagonal value. -/
def build_matrix_data (termFamilies : List String)
    (cooccurrenceMatrix : List ((String × String) × ℕ))
    (termCounts : List (String × ℕ)) : MatrixData :=
  let activeTerms := activeTermsOf termFamilies termCounts
  if activeTerms = [] then
    { terms := [], matrix := [], termCounts := [], maxCooccurrence := 0 }
  else
    let n := activeTerms.length
    let matrix := (List.range n).map (fun i =>
      (List.range n).map (fun j => matrixEntryOf activeTerms cooccurrenceMatrix termCounts i j))
    { terms := activeTerms
      matrix := matrix
      termCounts := activeTerms.map (fun t => (t, alookupD t termCounts 0))
      maxCooccurrence := maxCoOf matrix n }

end Cooccurrence

/-! ## Generic lemmas about the modelling primitives -/

namespace IWAC

theorem alookup_updAssoc {α β : Type} [DecidableEq α] (k k' : α) (init : β) (f : β → β)
    (l : List (α × β)) :
    alookup k (updAssoc k' init f l) =
      if k' = k then some ((alookup k' l).elim init f) else alookup k l := by
  induction l with
  | nil =>
    by_cases h : k' = k <;> simp [updAssoc, alookup, h]
  | cons p rest ih =>
    obtain ⟨a, v⟩ := p
    by_cases h1 : a = k'
    · subst h1
      by_cases h2 : a = k
      · subst h2
        simp [updAssoc, alookup]
      · simp [updAssoc, alookup, h2]
    · by_cases h2 : a = k
      · subst h2
        have hk : ¬ (k' = a) := fun hh => h1 hh.symm
        simp [updAssoc, alookup, h1, hk]
      · simp [updAssoc, alookup, h1, h2, ih]

theorem alookupD_updAssoc_self {α β : Type} [DecidableEq α] (k : α) (init : β) (f : β → β)
    (l : List (α × β)) (d : β) :
    alookupD k (updAssoc k init f l) d = (alookup k l).elim init f := by
  simp [alookupD, alookup_updAssoc]

theorem alookupD_updAssoc_ne {α β : Type} [DecidableEq α] {k k' : α} (h : k' ≠ k)
    (init : β) (f : β → β) (l : List (α × β)) (d : β) :
    alookupD k (updAssoc k' init f l) d = alookupD k l d := by
  simp [alookupD, alookup_updAssoc, h]

theorem mem_ltPairs {α : Type} {p : α × α} : ∀ {l : List α}, p ∈ ltPairs l → p.1 ∈ l ∧ p.2 ∈ l := by
  intro l
  induction l with
  | nil => simp [ltPairs]
  | cons x rest ih =>
    intro hp
    simp only [ltPairs, List.mem_append, List.mem_map] at hp
    rcases hp with ⟨y, hy, hxy⟩ | hp
    · subst hxy
      exact ⟨List.mem_cons_self _ _, List.mem_cons_of_mem _ hy⟩
    · exact ⟨List.mem_cons_of_mem _ (ih hp).1, List.mem_cons_of_mem _ (ih hp).2⟩

theorem count_map_pair {α : Type} [DecidableEq α] (x a b : α) (l : List α) :
    ((l.map (fun y => (x, y))).count (a, b)) = if a = x then l.count b else 0 := by
  induction l with
  | nil => simp
  | cons y rest ih =>
    by_cases hax : a = x
    · subst hax
      by_cases hby : b = y
      · subst hby
        simp [List.count_cons, ih]
      · simp [List.count_cons, ih, hby, Prod.ext_iff]
    · simp [List.count_cons, ih, hax, Prod.ext_iff]

/-- Counting occurrences of a pair in the `i < j` pair enumeration of a list that is
pairwise related by an asymmetric relation `R`: the pair `(a, b)` occurs exactly once
when both components occur and `R a b`, and never otherwise. -/
theorem count_ltPairs {α : Type} [DecidableEq α] (R : α → α → Prop) [DecidableRel R]
    (hasym : ∀ a b, R a b → ¬ R b a) (a b : α) :
    ∀ (l : List α), l.Pairwise R →
      (ltPairs l).count (a, b) = if a ∈ l ∧ b ∈ l ∧ R a b then 1 else 0 := by
  intro l
  induction l with
  | nil => simp [ltPairs]
  | cons x rest ih =>
    intro hpw
    have hR : ∀ y ∈ rest, R x y := (List.pairwise_cons.mp hpw).1
    have hpw' : rest.Pairwise R := (List.pairwise_cons.mp hpw).2
    have hnd : rest.Nodup := by
      refine List.Pairwise.imp ?_ hpw'
      intro c d hcd hce
      subst hce
      exact hasym c c hcd hcd
    have hxnr : x ∉ rest := by
      intro hx
      exact hasym x x (hR x hx) (hR x hx)
    simp only [ltPairs, List.count_append, count_map_pair]
    rw [ih hpw']
    by_cases hax : a = x
    · subst hax
      have h2 : ¬ (a ∈ rest ∧ b ∈ rest ∧ R a b) := fun h => hxnr h.1
      rw [if_pos rfl, if_neg h2]
      by_cases hbr : b ∈ rest
      · have hRb := hR b hbr
        rw [List.count_eq_one_of_mem hnd hbr]
        have h3 : a ∈ a :: rest ∧ b ∈ a :: rest ∧ R a b :=
          ⟨List.mem_cons_self _ _, List.mem_cons_of_mem _ hbr, hRb⟩
        simp [h3]
      · rw [List.count_eq_zero_of_not_mem hbr]
        have h3 : ¬ (a ∈ a :: rest ∧ b ∈ a :: rest ∧ R a b) := by
          rintro ⟨-, hb0, hr⟩
          rcases List.mem_cons.mp hb0 with hb1 | hb1
          · rw [hb1] at hr
            exact hasym a a hr hr
          · exact hbr hb1
        rw [if_neg h3]
    · rw [if_neg hax]
      by_cases hmem : a ∈ rest ∧ b ∈ rest ∧ R a b
      · have h3 : a ∈ x :: rest ∧ b ∈ x :: rest ∧ R a b :=
          ⟨List.mem_cons_of_mem _ hmem.1, List.mem_cons_of_mem _ hmem.2.1, hmem.2.2⟩
        rw [if_pos hmem, if_pos h3]
      · have h3 : ¬ (a ∈ x :: rest ∧ b ∈ x :: rest ∧ R a b) := by
          rintro ⟨ha0, hb0, hr⟩
          rcases List.mem_cons.mp ha0 with ha1 | ha1
          · exact hax ha1
          rcases List.mem_cons.mp hb0 with hb1 | hb1
          · rw [hb1] at hr
            exact hasym a x hr (hR a ha1)
          · exact hmem ⟨ha1, hb1, hr⟩
        rw [if_neg hmem, if_neg h3]

theorem charsLtB_irrefl : ∀ l : List Char, charsLtB l l = false := by
  intro l
  induction l with
  | nil => rfl
  | cons c cs ih => simp [charsLtB, ih]

theorem charsLtB_asymm :
    ∀ {l1 l2 : List Char}, charsLtB l1 l2 = true → charsLtB l2 l1 = false := by
  intro l1
  induction l1 with
  | nil =>
    intro l2 h
    cases l2 with
    | nil => simp [charsLtB] at h
    | cons d ds => simp [charsLtB]
  | cons c cs ih =>
    intro l2 h
    cases l2 with
    | nil => simp [charsLtB] at h
    | cons d ds =>
      by_cases h1 : c.toNat < d.toNat
      · have h2 : ¬ d.toNat < c.toNat := Nat.lt_asymm h1
        simp [charsLtB, h1, h2, Nat.not_lt_of_lt h1]
      · by_cases h2 : d.toNat < c.toNat
        · simp [charsLtB, h1, h2] at h
        · simp only [charsLtB, if_neg h1, if_neg h2] at h
          simp [charsLtB, h1, h2, ih h]

theorem charsLtB_trans :
    ∀ {l1 l2 l3 : List Char}, charsLtB l1 l2 = true → charsLtB l2 l3 = true →
      charsLtB l1 l3 = true := by
  intro l1
  induction l1 with
  | nil =>
    intro l2 l3 h12 h23
    cases l2 with
    | nil => simp [charsLtB] at h12
    | cons d ds =>
      cases l3 with
      | nil => simp [charsLtB] at h23
      | cons e es => simp [charsLtB]
  | cons c cs ih =>
    intro l2 l3 h12 h23
    cases l2 with
    | nil => simp [charsLtB] at h12
    | cons d ds =>
      cases l3 with
      | nil => simp [charsLtB] at h23
      | cons e es =>
        by_cases hcd : c.toNat < d.toNat
        · by_cases hde : d.toNat < e.toNat
          · simp [charsLtB, Nat.lt_trans hcd hde]
          · by_cases hed : e.toNat < d.toNat
            · simp [charsLtB, hde, hed] at h23
            · have hdeq : d.toNat = e.toNat := Nat.le_antisymm (Nat.le_of_not_lt hed) (Nat.le_of_not_lt hde)
              simp [charsLtB, hdeq ▸ hcd]
        · by_cases hdc : d.toNat < c.toNat
          · simp [charsLtB, hcd, hdc] at h12
          · have hceq : c.toNat = d.toNat := Nat.le_antisymm (Nat.le_of_not_lt hdc) (Nat.le_of_not_lt hcd)
            simp only [charsLtB, if_neg hcd, if_neg hdc] at h12
            by_cases hde : d.toNat < e.toNat
            · simp [charsLtB, hceq ▸ hde]
            · by_cases hed : e.toNat < d.toNat
              · simp [charsLtB, hde, hed] at h23
              · simp only [charsLtB, if_neg hde, if_neg hed] at h23
                have h1 : ¬ c.toNat < e.toNat := by
                  rw [hceq]; exact hde
                have h2 : ¬ e.toNat < c.toNat := by
                  rw [hceq]; exact hed
                simp [charsLtB, h1, h2, ih h12 h23]

theorem charsLtB_conn :
    ∀ {l1 l2 : List Char}, charsLtB l1 l2 = false → charsLtB l2 l1 = false → l1 = l2 := by
  intro l1
  induction l1 with
  | nil =>
    intro l2 h12 h21
    cases l2 with
    | nil => rfl
    | cons d ds => simp [charsLtB] at h12
  | cons c cs ih =>
    intro l2 h12 h21
    cases l2 with
    | nil => simp [charsLtB] at h21
    | cons d ds =>
      by_cases hcd : c.toNat < d.toNat
      · simp [charsLtB, hcd] at h12
      · by_cases hdc : d.toNat < c.toNat
        · simp [charsLtB, hdc] at h21
        · have hceq : c.toNat = d.toNat := Nat.le_antisymm (Nat.le_of_not_lt hdc) (Nat.le_of_not_lt hcd)
          have hc : c = d := Char.eq_of_val_eq (by
            have : c.val.toNat = d.val.toNat := hceq
            exact UInt32.eq_of_val_eq (Fin.ext this))
          simp only [charsLtB, if_neg hcd, if_neg hdc] at h12
          simp only [charsLtB, if_neg hdc, if_neg hcd] at h21
          rw [hc, ih h12 h21]

theorem string_data_inj {a b : String} (h : a.data = b.data) : a = b := by
  cases a
  cases b
  exact congrArg String.mk (by simpa using h)

theorem strLtB_conn {a b : String} (h1 : strLtB a b = false) (h2 : strLtB b a = false) :
    a = b :=
  string_data_inj (charsLtB_conn h1 h2)

theorem strLe_total (a b : String) : strLe a b ∨ strLe b a := by
  unfold strLe
  by_cases h : strLtB b a = false
  · exact Or.inl h
  · refine Or.inr ?_
    have h' : strLtB b a = true := by
      cases hx : strLtB b a
      · exact absurd hx h
      · rfl
    exact charsLtB_asymm h'

theorem strLe_trans {a b c : String} (h1 : strLe a b) (h2 : strLe b c) : strLe a c := by
  unfold strLe at *
  cases hx : strLtB c a with
  | false => rfl
  | true =>
    exfalso
    unfold strLtB at *
    by_cases hba : charsLtB b.data a.data = true
    · rw [h1] at hba
      exact Bool.false_ne_true hba
    · by_cases hab : charsLtB a.data b.data = true
      · have := charsLtB_trans hx hab
        rw [h2] at this
        exact Bool.false_ne_true this
      · have hEq : a.data = b.data :=
          charsLtB_conn (Bool.of_not_eq_true hab) h1
        rw [hEq] at hx
        rw [h2] at hx
        exact Bool.false_ne_true hx

instance : IsTotal String strLe := ⟨strLe_total⟩

instance : IsTrans String strLe := ⟨fun _ _ _ => strLe_trans⟩

/-- On duplicate-free input, a `strLe`-sorted list is pairwise strictly increasing. -/
theorem pairwise_strLtB_of_sorted_nodup {l : List String}
    (hs : l.Pairwise strLe) (hnd : l.Nodup) :
    l.Pairwise (fun a b => strLtB a b = true) := by
  have := List.Pairwise.and hs hnd
  refine this.imp ?_
  rintro a b ⟨hle, hne⟩
  cases hx : strLtB a b with
  | true => rfl
  | false => exact absurd (strLtB_conn hx hle) hne

theorem strLtB_asymm' (a b : String) (h : strLtB a b = true) : ¬ strLtB b a = true := by
  intro h'
  have h2 : strLtB b a = false := charsLtB_asymm h
  rw [h'] at h2
  exact absurd h2 (by simp)

/-- Value at key `k` in a `ℕ`-valued accumulator, defaulting to `0`. -/
def cnt {α : Type} [DecidableEq α] (l : List (α × ℕ)) (k : α) : ℕ := alookupD k l 0

theorem cnt_bumpAssoc {α : Type} [DecidableEq α] (k k' : α) (l : List (α × ℕ)) :
    cnt (bumpAssoc k' l) k = cnt l k + if k' = k then 1 else 0 := by
  by_cases h : k' = k
  · subst h
    simp only [cnt, bumpAssoc, alookupD_updAssoc_self, if_pos rfl]
    cases hx : alookup k' l <;> simp [alookupD, hx]
  · simp [cnt, bumpAssoc, alookupD_updAssoc_ne h, h]

theorem cnt_foldl_cond_bump {α β : Type} [DecidableEq α] (k k' : α) (p : β → Bool)
    (xs : List β) (acc : List (α × ℕ)) :
    cnt (xs.foldl (fun acc x => if p x then bumpAssoc k' acc else acc) acc) k =
      cnt acc k + if k' = k then xs.countP p else 0 := by
  induction xs generalizing acc with
  | nil => simp
  | cons x rest ih =>
    simp only [List.foldl_cons, List.countP_cons]
    by_cases hx : p x
    · rw [ih, if_pos hx, cnt_bumpAssoc]
      by_cases h : k' = k <;> simp [h, hx] <;> omega
    · rw [ih, if_neg hx]
      simp [hx]

theorem cnt_nil {α : Type} [DecidableEq α] (k : α) : cnt ([] : List (α × ℕ)) k = 0 := rfl

theorem cnt_foldl_cond_bump_prop {α β : Type} [DecidableEq α] (k k' : α) (q : β → Prop)
    [DecidablePred q] (xs : List β) (acc : List (α × ℕ)) :
    cnt (xs.foldl (fun acc x => if q x then bumpAssoc k' acc else acc) acc) k =
      cnt acc k + if k' = k then xs.countP (fun x => decide (q x)) else 0 := by
  induction xs generalizing acc with
  | nil => simp
  | cons x rest ih =>
    simp only [List.foldl_cons, List.countP_cons]
    by_cases hx : q x
    · rw [if_pos hx, ih, cnt_bumpAssoc]
      by_cases h : k' = k <;> simp [h, hx] <;> omega
    · rw [if_neg hx, ih]
      simp [hx]

theorem sum_map_add_nat {α : Type} (f g : α → ℕ) (l : List α) :
    (l.map (fun x => f x + g x)).sum = (l.map f).sum + (l.map g).sum := by
  induction l with
  | nil => simp
  | cons x rest ih => simp [ih]; omega

theorem countP_eq_sum_ind {α : Type} (p : α → Bool) (l : List α) :
    l.countP p = (l.map (fun x => if p x then 1 else 0)).sum := by
  induction l with
  | nil => simp
  | cons x rest ih =>
    by_cases h : p x <;> simp [List.countP_cons, h, ih] <;> omega

theorem map_sum_congr {α : Type} (f g : α → ℕ) (l : List α) (h : ∀ x ∈ l, f x = g x) :
    (l.map f).sum = (l.map g).sum := by
  induction l with
  | nil => rfl
  | cons x rest ih =>
    simp only [List.map_cons, List.sum_cons]
    rw [h x (List.mem_cons_self x rest),
      ih (fun y hy => h y (List.mem_cons_of_mem _ hy))]

theorem countP_eq_sum_ind_prop {α : Type} (q : α → Prop) [DecidablePred q] (l : List α) :
    l.countP (fun x => decide (q x)) = (l.map (fun x => if q x then 1 else 0)).sum := by
  induction l with
  | nil => simp
  | cons x rest ih =>
    by_cases h : q x <;> simp [List.countP_cons, h, ih] <;> omega

theorem sum_map_zero {α : Type} (l : List α) : (l.map (fun _ => (0 : ℕ))).sum = 0 := by
  induction l <;> simp [*]

theorem sum_sum_comm {α β : Type} (f : α → β → ℕ) (l1 : List α) (l2 : List β) :
    (l1.map (fun a => (l2.map (f a)).sum)).sum =
      (l2.map (fun b => (l1.map (fun a => f a b)).sum)).sum := by
  induction l1 with
  | nil =>
    simp only [List.map_nil, List.sum_nil]
    exact (sum_map_zero l2).symm
  | cons a rest ih =>
    simp only [List.map_cons, List.sum_cons]
    rw [ih, ← sum_map_add_nat]

theorem sortPair_eq_cases {x y A B : String} (h : sortPair x y = sortPair A B) :
    (x = A ∧ y = B) ∨ (x = B ∧ y = A) := by
  unfold sortPair at h
  by_cases h1 : strLtB x y = true <;> by_cases h2 : strLtB A B = true <;>
    simp [h1, h2, Prod.ext_iff] at h <;> tauto

theorem sortPair_comm (a b : String) (hne : a ≠ b) : sortPair a b = sortPair b a := by
  unfold sortPair
  by_cases h1 : strLtB a b = true
  · have h2 : strLtB b a ≠ true := strLtB_asymm' a b h1
    simp [h1, h2]
  · by_cases h2 : strLtB b a = true
    · simp [h1, h2]
    · exact absurd (strLtB_conn (Bool.of_not_eq_true h2) (Bool.of_not_eq_true h1)) hne.symm

end IWAC

namespace Cooccurrence

open IWAC

theorem spec_eq_double (W : ℕ) (ps1 ps2 : List ℕ) :
    specWindowPairCount W ps1 ps2 =
      (ps1.map (fun a => (ps2.map (fun b => if Nat.dist a b ≤ W then 1 else 0)).sum)).sum := by
  unfold specWindowPairCount
  apply map_sum_congr
  intro a _
  exact countP_eq_sum_ind_prop _ _

theorem specWindowPairCount_comm (W : ℕ) (ps1 ps2 : List ℕ) :
    specWindowPairCount W ps1 ps2 = specWindowPairCount W ps2 ps1 := by
  rw [spec_eq_double, spec_eq_double, sum_sum_comm]
  apply map_sum_congr
  intro b _
  apply map_sum_congr
  intro a _
  simp [Nat.dist_comm]

theorem cnt_doubleFold (W : ℕ) (k k' : String × String) (ps1 ps2 : List ℕ)
    (acc : List ((String × String) × ℕ)) :
    cnt (ps1.foldl (fun acc p1 =>
      ps2.foldl (fun acc p2 =>
        if Nat.dist p1 p2 ≤ W then bumpAssoc k' acc else acc) acc) acc) k =
      cnt acc k + if k' = k then specWindowPairCount W ps1 ps2 else 0 := by
  induction ps1 generalizing acc with
  | nil => simp [specWindowPairCount]
  | cons p1 rest ih =>
    simp only [List.foldl_cons]
    rw [ih, cnt_foldl_cond_bump_prop]
    simp only [specWindowPairCount, List.map_cons, List.sum_cons]
    by_cases h : k' = k <;> simp [h, specWindowPairCount] <;> omega

theorem cnt_cooccFold (W : ℕ) (k : String × String)
    (fps : List ((String × List ℕ) × (String × List ℕ)))
    (acc : List ((String × String) × ℕ)) :
    cnt (fps.foldl (fun acc fp =>
      fp.1.2.foldl (fun acc p1 =>
        fp.2.2.foldl (fun acc p2 =>
          if Nat.dist p1 p2 ≤ W then bumpAssoc (sortPair fp.1.1 fp.2.1) acc else acc)
          acc) acc) acc) k =
      cnt acc k +
        (fps.map (fun fp =>
          if sortPair fp.1.1 fp.2.1 = k then specWindowPairCount W fp.1.2 fp.2.2 else 0)).sum := by
  induction fps generalizing acc with
  | nil => simp
  | cons fp rest ih =>
    rw [List.foldl_cons, ih, cnt_doubleFold]
    simp only [List.map_cons, List.sum_cons]
    by_cases h : sortPair fp.1.1 fp.2.1 = k <;> simp [h] <;> omega

theorem sum_single_key (g : List ℕ → ℕ) (B : String) (psB : List ℕ) :
    ∀ (rest : List (String × List ℕ)), (rest.map Prod.fst).Nodup → (B, psB) ∈ rest →
      (rest.map (fun y => if y.1 = B then g y.2 else 0)).sum = g psB := by
  intro rest
  induction rest with
  | nil =>
    intro _ hmem
    exact absurd hmem (List.not_mem_nil _)
  | cons y rest' ih =>
    intro hnd hmem
    have hnd' : (rest'.map Prod.fst).Nodup := (List.nodup_cons.mp (by simpa using hnd)).2
    have hBy : y.1 ∉ rest'.map Prod.fst := (List.nodup_cons.mp (by simpa using hnd)).1
    simp only [List.map_cons, List.sum_cons]
    rcases List.mem_cons.mp hmem with hy | hy
    · subst hy
      have hz : (rest'.map (fun y => if y.1 = B then g y.2 else 0)).sum = 0 := by
        apply List.sum_eq_zero
        intro v hv
        rcases List.mem_map.mp hv with ⟨z, hz1, hz2⟩
        have hzB : z.1 ≠ B := by
          intro hzB
          have hzmem : z.1 ∈ rest'.map Prod.fst := List.mem_map_of_mem Prod.fst hz1
          rw [hzB] at hzmem
          exact hBy hzmem
        simp [← hz2, hzB]
      simp [hz]
    · have hyB : y.1 ≠ B := by
        intro h1
        apply hBy
        have hmem2 : B ∈ rest'.map Prod.fst := List.mem_map_of_mem Prod.fst hy
        rwa [h1]
      rw [if_neg hyB, ih hnd' hy]
      simp

theorem sum_ltPairs_key (W : ℕ) (A B : String) (psA psB : List ℕ) (hAB : A ≠ B) :
    ∀ (tp : List (String × List ℕ)), (tp.map Prod.fst).Nodup →
      (A, psA) ∈ tp → (B, psB) ∈ tp →
      ((ltPairs tp).map (fun fp =>
        if sortPair fp.1.1 fp.2.1 = sortPair A B then
          specWindowPairCount W fp.1.2 fp.2.2 else 0)).sum
        = specWindowPairCount W psA psB := by
  intro tp
  induction tp with
  | nil =>
    intro _ hA _
    exact absurd hA (List.not_mem_nil _)
  | cons x rest ih =>
    intro hnd hA hB
    have hnd' : (rest.map Prod.fst).Nodup := (List.nodup_cons.mp (by simpa using hnd)).2
    have hxnr : x.1 ∉ rest.map Prod.fst := (List.nodup_cons.mp (by simpa using hnd)).1
    simp only [ltPairs, List.map_append, List.sum_append, List.map_map]
    rcases List.mem_cons.mp hA with hxA | hA'
    · have hB' : (B, psB) ∈ rest := by
        rcases List.mem_cons.mp hB with hxB | h
        · exact absurd (congrArg Prod.fst (hxA.trans hxB.symm)) hAB
        · exact h
      subst hxA
      have hfirst :
          (rest.map ((fun fp : (String × List ℕ) × (String × List ℕ) =>
            if sortPair fp.1.1 fp.2.1 = sortPair A B then
              specWindowPairCount W fp.1.2 fp.2.2 else 0) ∘ (fun y => ((A, psA), y)))).sum
            = specWindowPairCount W psA psB := by
        rw [map_sum_congr _
          (fun y : String × List ℕ =>
            if y.1 = B then specWindowPairCount W psA y.2 else 0) _ ?_]
        · exact sum_single_key (fun ps => specWindowPairCount W psA ps) B psB rest hnd' hB'
        · intro y _
          by_cases hyB : y.1 = B
          · have hk : sortPair A y.1 = sortPair A B := by rw [hyB]
            simp [Function.comp, hk, hyB]
          · have hk : ¬ (sortPair A y.1 = sortPair A B) := by
              intro h
              rcases sortPair_eq_cases h with ⟨_, h2⟩ | ⟨h1, _⟩
              · exact hyB h2
              · exact hAB h1
            simp [Function.comp, hk, hyB]
      have hsecond :
          ((ltPairs rest).map (fun fp =>
            if sortPair fp.1.1 fp.2.1 = sortPair A B then
              specWindowPairCount W fp.1.2 fp.2.2 else 0)).sum = 0 := by
        apply List.sum_eq_zero
        intro v hv
        rcases List.mem_map.mp hv with ⟨fp, hfp, hfpv⟩
        have hm := mem_ltPairs hfp
        have hk : ¬ (sortPair fp.1.1 fp.2.1 = sortPair A B) := by
          intro h
          apply hxnr
          have hmm1 : fp.1.1 ∈ rest.map Prod.fst := List.mem_map_of_mem Prod.fst hm.1
          have hmm2 : fp.2.1 ∈ rest.map Prod.fst := List.mem_map_of_mem Prod.fst hm.2
          rcases sortPair_eq_cases h with ⟨h1, _⟩ | ⟨_, h2⟩
          · rw [h1] at hmm1
            exact hmm1
          · rw [h2] at hmm2
            exact hmm2
        simp [← hfpv, hk]
      rw [hfirst, hsecond]
      simp
    · rcases List.mem_cons.mp hB with hxB | hB'
      · subst hxB
        have hfirst :
            (rest.map ((fun fp : (String × List ℕ) × (String × List ℕ) =>
              if sortPair fp.1.1 fp.2.1 = sortPair A B then
                specWindowPairCount W fp.1.2 fp.2.2 else 0) ∘ (fun y => ((B, psB), y)))).sum
              = specWindowPairCount W psA psB := by
          rw [map_sum_congr _
            (fun y : String × List ℕ =>
              if y.1 = A then specWindowPairCount W psB y.2 else 0) _ ?_]
          · rw [sum_single_key (fun ps => specWindowPairCount W psB ps) A psA rest hnd' hA']
            exact specWindowPairCount_comm W psB psA
          · intro y _
            by_cases hyA : y.1 = A
            · have hk : sortPair B A = sortPair A B := sortPair_comm B A (Ne.symm hAB)
              simp [Function.comp, hyA, hk]
            · have hk : ¬ (sortPair B y.1 = sortPair A B) := by
                intro h
                rcases sortPair_eq_cases h with ⟨h1, _⟩ | ⟨_, h2⟩
                · exact hAB h1.symm
                · exact hyA h2
              simp [Function.comp, hk, hyA]
        have hsecond :
            ((ltPairs rest).map (fun fp =>
              if sortPair fp.1.1 fp.2.1 = sortPair A B then
                specWindowPairCount W fp.1.2 fp.2.2 else 0)).sum = 0 := by
          apply List.sum_eq_zero
          intro v hv
          rcases List.mem_map.mp hv with ⟨fp, hfp, hfpv⟩
          have hm := mem_ltPairs hfp
          have hk : ¬ (sortPair fp.1.1 fp.2.1 = sortPair A B) := by
            intro h
            apply hxnr
            have hmm1 : fp.1.1 ∈ rest.map Prod.fst := List.mem_map_of_mem Prod.fst hm.1
            have hmm2 : fp.2.1 ∈ rest.map Prod.fst := List.mem_map_of_mem Prod.fst hm.2
            rcases sortPair_eq_cases h with ⟨_, h2⟩ | ⟨h1, _⟩
            · rw [h2] at hmm2
              exact hmm2
            · rw [h1] at hmm1
              exact hmm1
          simp [← hfpv, hk]
        rw [hfirst, hsecond]
        simp
      · have hxA : x.1 ≠ A := by
          intro h
          apply hxnr
          have : A ∈ rest.map Prod.fst := List.mem_map_of_mem Prod.fst hA'
          rwa [h]
        have hxB : x.1 ≠ B := by
          intro h
          apply hxnr
          have : B ∈ rest.map Prod.fst := List.mem_map_of_mem Prod.fst hB'
          rwa [h]
        have hfirst :
            (rest.map ((fun fp : (String × List ℕ) × (String × List ℕ) =>
              if sortPair fp.1.1 fp.2.1 = sortPair A B then
                specWindowPairCount W fp.1.2 fp.2.2 else 0) ∘ (fun y => (x, y)))).sum = 0 := by
          apply List.sum_eq_zero
          intro v hv
          rcases List.mem_map.mp hv with ⟨y, _, hyv⟩
          have hk : ¬ (sortPair x.1 y.1 = sortPair A B) := by
            intro h
            rcases sortPair_eq_cases h with ⟨h1, _⟩ | ⟨h1, _⟩
            · exact hxA h1
            · exact hxB h1
          simp [← hyv, Function.comp, hk]
        rw [hfirst, ih hnd' hA' hB']
        simp

/-- C5: In Window Mode, for every document (given by its term-family → occurrence-position
map, whose keys are distinct because it is a Python dict) and every pair of distinct
term-families `A` and `B`, the weight contributed by that document under
`compute_cooccurrence_in_article` equals the number of position pairs `(posA, posB)`
with `|posA − posB| ≤ W` — a full pair count, not a 0/1 presence flag. -/
theorem window_weight_counts_all_pairs (W : ℕ) (tp : List (String × List ℕ))
    (A B : String) (psA psB : List ℕ)
    (hnd : (tp.map Prod.fst).Nodup) (hA : (A, psA) ∈ tp) (hB : (B, psB) ∈ tp)
    (hAB : A ≠ B) :
    alookupD (sortPair A B) (computeCooccurrence W tp) 0 =
      specWindowPairCount W psA psB := by
  have hlen : ¬ tp.length < 2 := by
    intro hl
    cases tp with
    | nil => exact absurd hA (List.not_mem_nil _)
    | cons x rest =>
      cases rest with
      | nil =>
        have h1 : (A, psA) = x := by simpa using hA
        have h2 : (B, psB) = x := by simpa using hB
        exact hAB (congrArg Prod.fst (h1.trans h2.symm))
      | cons y rest' =>
        simp only [List.length_cons] at hl
        omega
  show cnt (computeCooccurrence W tp) (sortPair A B) = _
  unfold computeCooccurrence
  rw [if_neg hlen, cnt_cooccFold, cnt_nil, Nat.zero_add]
  exact sum_ltPairs_key W A B psA psB hAB tp hnd hA hB

/-- Witness for C5 at the spec's own scenario: families `alpha` at positions `[0, 5]`
and `radical` at position `[3]`, window 2 — only the pair `(5, 3)` is within the window,
so the contributed weight is exactly 1. -/
theorem window_weight_counts_all_pairs_witness :
    (([("alpha", [0, 5]), ("radical", [3])].map
        (Prod.fst (α := String) (β := List ℕ))).Nodup ∧ "alpha" ≠ "radical") ∧
    alookupD (sortPair "alpha" "radical")
      (computeCooccurrence 2 [("alpha", [0, 5]), ("radical", [3])]) 0 = 1 := by
  refine ⟨⟨by decide, by decide⟩, ?_⟩
  have h := window_weight_counts_all_pairs 2 [("alpha", [0, 5]), ("radical", [3])]
    "alpha" "radical" [0, 5] [3] (by decide) (by decide) (by decide) (by decide)
  rw [h]
  decide

theorem getD_of_lt {α : Type} (l : List α) (d : α) (i : ℕ) (h : i < l.length) :
    l.getD i d = l.get ⟨i, h⟩ := by
  rw [List.getD_eq_getElem?_getD, List.getElem?_eq_getElem h]
  simp [List.get_eq_getElem]

theorem getD_of_ge {α : Type} (l : List α) (d : α) (i : ℕ) (h : l.length ≤ i) :
    l.getD i d = d := by
  rw [List.getD_eq_getElem?_getD, List.getElem?_eq_none h]
  rfl

theorem build_matrix_data_eq (tf : List String)
    (cooc : List ((String × String) × ℕ)) (tc : List (String × ℕ)) :
    build_matrix_data tf cooc tc =
      { terms := activeTermsOf tf tc
        matrix := (List.range (activeTermsOf tf tc).length).map (fun i =>
          (List.range (activeTermsOf tf tc).length).map
            (fun j => matrixEntryOf (activeTermsOf tf tc) cooc tc i j))
        termCounts := (activeTermsOf tf tc).map (fun t => (t, alookupD t tc 0))
        maxCooccurrence :=
          maxCoOf ((List.range (activeTermsOf tf tc).length).map (fun i =>
            (List.range (activeTermsOf tf tc).length).map
              (fun j => matrixEntryOf (activeTermsOf tf tc) cooc tc i j)))
            (activeTermsOf tf tc).length } := by
  by_cases hne : activeTermsOf tf tc = []
  · simp [build_matrix_data, hne, maxCoOf]
  · simp [build_matrix_data, hne]

theorem matrix_row_getD (tf : List String)
    (cooc : List ((String × String) × ℕ)) (tc : List (String × ℕ)) (i : ℕ)
    (hi : i < (activeTermsOf tf tc).length) :
    (build_matrix_data tf cooc tc).matrix.getD i [] =
      (List.range (activeTermsOf tf tc).length).map
        (fun j => matrixEntryOf (activeTermsOf tf tc) cooc tc i j) := by
  rw [build_matrix_data_eq]
  have hlen : i < ((List.range (activeTermsOf tf tc).length).map (fun i =>
      (List.range (activeTermsOf tf tc).length).map
        (fun j => matrixEntryOf (activeTermsOf tf tc) cooc tc i j))).length := by
    simpa using hi
  rw [getD_of_lt _ _ _ hlen]
  simp

theorem matrix_cell_getD (tf : List String)
    (cooc : List ((String × String) × ℕ)) (tc : List (String × ℕ)) (i j : ℕ)
    (hi : i < (activeTermsOf tf tc).length) (hj : j < (activeTermsOf tf tc).length) :
    ((build_matrix_data tf cooc tc).matrix.getD i []).getD j 0 =
      matrixEntryOf (activeTermsOf tf tc) cooc tc i j := by
  rw [matrix_row_getD tf cooc tc i hi]
  have hlen : j < ((List.range (activeTermsOf tf tc).length).map
      (fun j => matrixEntryOf (activeTermsOf tf tc) cooc tc i j)).length := by
    simpa using hj
  rw [getD_of_lt _ _ _ hlen]
  simp

theorem matrix_cell_getD_zero_right (tf : List String)
    (cooc : List ((String × String) × ℕ)) (tc : List (String × ℕ)) (i j : ℕ)
    (hj : (activeTermsOf tf tc).length ≤ j) :
    ((build_matrix_data tf cooc tc).matrix.getD i []).getD j 0 = 0 := by
  by_cases hi : i < (activeTermsOf tf tc).length
  · rw [matrix_row_getD tf cooc tc i hi, getD_of_ge]
    simpa using hj
  · have hrow : (build_matrix_data tf cooc tc).matrix.getD i [] = [] := by
      rw [build_matrix_data_eq]
      apply getD_of_ge
      simpa using Nat.le_of_not_lt hi
    rw [hrow]
    simp

theorem matrix_cell_getD_zero_left (tf : List String)
    (cooc : List ((String × String) × ℕ)) (tc : List (String × ℕ)) (i j : ℕ)
    (hi : (activeTermsOf tf tc).length ≤ i) :
    ((build_matrix_data tf cooc tc).matrix.getD i []).getD j 0 = 0 := by
  have hrow : (build_matrix_data tf cooc tc).matrix.getD i [] = [] := by
    rw [build_matrix_data_eq]
    apply getD_of_ge
    simpa using hi
  rw [hrow]
  simp

theorem foldl_ge_init {β : Type} (step : ℕ → β → ℕ) (hmono : ∀ m x, m ≤ step m x)
    (l : List β) (m0 : ℕ) : m0 ≤ l.foldl step m0 := by
  induction l generalizing m0 with
  | nil => exact Nat.le_refl m0
  | cons x rest ih => exact Nat.le_trans (hmono m0 x) (ih (step m0 x))

theorem foldl_dominates {β : Type} (step : ℕ → β → ℕ) (hmono : ∀ m x, m ≤ step m x)
    (f : β → ℕ) (p : β → Prop) (hb : ∀ m x, p x → f x ≤ step m x)
    (l : List β) (m0 : ℕ) :
    ∀ x ∈ l, p x → f x ≤ l.foldl step m0 := by
  induction l generalizing m0 with
  | nil => intro x hx; exact absurd hx (List.not_mem_nil _)
  | cons y rest ih =>
    intro x hx hpx
    rcases List.mem_cons.mp hx with hxy | hxr
    · subst hxy
      exact Nat.le_trans (hb m0 x hpx) (foldl_ge_init step hmono rest _)
    · exact ih (step m0 y) x hxr hpx

theorem foldl_attained {β : Type} (step : ℕ → β → ℕ) (R : β → ℕ → Prop)
    (ha : ∀ m x, step m x = m ∨ R x (step m x)) (l : List β) (m0 : ℕ) :
    l.foldl step m0 = m0 ∨ ∃ x ∈ l, R x (l.foldl step m0) := by
  induction l generalizing m0 with
  | nil => exact Or.inl rfl
  | cons y rest ih =>
    rcases ih (step m0 y) with h | ⟨x, hx, hR⟩
    · rcases ha m0 y with h2 | h2
      · rw [List.foldl_cons, h, h2]
        exact Or.inl rfl
      · refine Or.inr ⟨y, List.mem_cons_self _ _, ?_⟩
        rw [List.foldl_cons, h]
        exact h2
    · exact Or.inr ⟨x, List.mem_cons_of_mem _ hx, hR⟩

theorem maxCoOf_bounds (matrix : List (List ℕ)) (n : ℕ) :
    (∀ i ∈ List.range n, ∀ j ∈ List.range n, i ≠ j →
      (matrix.getD i []).getD j 0 ≤ maxCoOf matrix n) ∧
    (maxCoOf matrix n = 0 ∨ ∃ i ∈ List.range n, ∃ j ∈ List.range n,
      i ≠ j ∧ (matrix.getD i []).getD j 0 = maxCoOf matrix n) := by
  have hmono1 : ∀ (i : ℕ) (m : ℕ) (j : ℕ),
      m ≤ (if i ≠ j ∧ m < (matrix.getD i []).getD j 0 then (matrix.getD i []).getD j 0
        else m) := by
    intro i m j
    split
    · omega
    · exact Nat.le_refl m
  have hmono2 : ∀ (m : ℕ) (i : ℕ),
      m ≤ (List.range n).foldl (fun m j =>
        if i ≠ j ∧ m < (matrix.getD i []).getD j 0 then (matrix.getD i []).getD j 0
        else m) m :=
    fun m i => foldl_ge_init _ (hmono1 i) _ m
  constructor
  · intro i hi j hj hij
    have hb2 : ∀ (m' : ℕ) (i' : ℕ), i' = i →
        (matrix.getD i' []).getD j 0 ≤
          (List.range n).foldl (fun m j =>
            if i' ≠ j ∧ m < (matrix.getD i' []).getD j 0 then (matrix.getD i' []).getD j 0
            else m) m' := by
      intro m' i' hii
      have hb1 : ∀ (m'' : ℕ) (j' : ℕ), i' ≠ j' →
          (matrix.getD i' []).getD j' 0 ≤
            (if i' ≠ j' ∧ m'' < (matrix.getD i' []).getD j' 0 then
              (matrix.getD i' []).getD j' 0 else m'') := by
        intro m'' j' hij'
        by_cases hlt : m'' < (matrix.getD i' []).getD j' 0
        · rw [if_pos ⟨hij', hlt⟩]
        · rw [if_neg (fun hc => hlt hc.2)]
          exact Nat.le_of_not_lt hlt
      subst hii
      exact foldl_dominates _ (hmono1 i')
        (fun j' => (matrix.getD i' []).getD j' 0) (fun j' => i' ≠ j') hb1 _ _ j hj hij
    exact foldl_dominates _ hmono2
      (fun i' => (matrix.getD i' []).getD j 0) (fun i' => i' = i) hb2 _ _ i hi rfl
  · have hinner : ∀ (m : ℕ) (i : ℕ),
        (List.range n).foldl (fun m j =>
          if i ≠ j ∧ m < (matrix.getD i []).getD j 0 then (matrix.getD i []).getD j 0
          else m) m = m ∨
        ∃ j ∈ List.range n, i ≠ j ∧
          (matrix.getD i []).getD j 0 =
            (List.range n).foldl (fun m j =>
              if i ≠ j ∧ m < (matrix.getD i []).getD j 0 then (matrix.getD i []).getD j 0
              else m) m := by
      intro m i
      exact foldl_attained _
        (fun j v => i ≠ j ∧ (matrix.getD i []).getD j 0 = v)
        (by
          intro m' j
          by_cases hc : i ≠ j ∧ m' < (matrix.getD i []).getD j 0
          · rw [if_pos hc]
            exact Or.inr ⟨hc.1, rfl⟩
          · rw [if_neg hc]
            exact Or.inl rfl) _ m
    have := foldl_attained
      (fun m i => (List.range n).foldl (fun m j =>
        if i ≠ j ∧ m < (matrix.getD i []).getD j 0 then (matrix.getD i []).getD j 0
        else m) m)
      (fun i v => ∃ j ∈ List.range n, i ≠ j ∧ (matrix.getD i []).getD j 0 = v)
      (by
        intro m i
        rcases hinner m i with h | ⟨j, hj, hij, hv⟩
        · exact Or.inl h
        · exact Or.inr ⟨j, hj, hij, hv⟩)
      (List.range n) 0
    rcases this with h | ⟨i, hi, j, hj, hij, hv⟩
    · exact Or.inl h
    · exact Or.inr ⟨i, hi, j, hj, hij, hv⟩

theorem matrixEntryOf_symm (at' : List String)
    (cooc : List ((String × String) × ℕ)) (tc : List (String × ℕ)) (i j : ℕ) :
    matrixEntryOf at' cooc tc i j = matrixEntryOf at' cooc tc j i := by
  unfold matrixEntryOf
  by_cases hij : i = j
  · subst hij
    rfl
  · rw [if_neg hij, if_neg (Ne.symm hij)]
    by_cases ht : at'.getD i "" = at'.getD j ""
    · rw [ht]
    · rw [sortPair_comm _ _ ht]

/-- C10: the matrix built for visualization is a square `n × n` matrix over the
alphabetically sorted terms with positive own-count; it is symmetric; its diagonal
entry for each term equals that term's own occurrence count; and `max_cooccurrence`
equals the maximum off-diagonal entry (it bounds every off-diagonal entry and is
attained by one, or is `0` when there is none). -/
theorem matrix_square_symmetric_diag_max (tf : List String)
    (cooc : List ((String × String) × ℕ)) (tc : List (String × ℕ)) :
    ((build_matrix_data tf cooc tc).terms.Pairwise strLe ∧
      (∀ t, t ∈ (build_matrix_data tf cooc tc).terms ↔
        t ∈ tf ∧ 0 < alookupD t tc 0)) ∧
    ((build_matrix_data tf cooc tc).matrix.length =
        (build_matrix_data tf cooc tc).terms.length ∧
      ∀ row ∈ (build_matrix_data tf cooc tc).matrix,
        row.length = (build_matrix_data tf cooc tc).terms.length) ∧
    (∀ i j : ℕ, ((build_matrix_data tf cooc tc).matrix.getD i []).getD j 0 =
      ((build_matrix_data tf cooc tc).matrix.getD j []).getD i 0) ∧
    (∀ i : ℕ, i < (build_matrix_data tf cooc tc).terms.length →
      ((build_matrix_data tf cooc tc).matrix.getD i []).getD i 0 =
        alookupD ((build_matrix_data tf cooc tc).terms.getD i "") tc 0) ∧
    ((∀ i j : ℕ, i ≠ j →
        ((build_matrix_data tf cooc tc).matrix.getD i []).getD j 0 ≤
          (build_matrix_data tf cooc tc).maxCooccurrence) ∧
      ((build_matrix_data tf cooc tc).maxCooccurrence = 0 ∨
        ∃ i j : ℕ, i ≠ j ∧
          ((build_matrix_data tf cooc tc).matrix.getD i []).getD j 0 =
            (build_matrix_data tf cooc tc).maxCooccurrence)) := by
  have hterms : (build_matrix_data tf cooc tc).terms = activeTermsOf tf tc := by
    rw [build_matrix_data_eq]
  refine ⟨⟨?_, ?_⟩, ⟨?_, ?_⟩, ?_, ?_, ?_, ?_⟩
  · rw [hterms]
    exact List.sorted_insertionSort strLe _
  · intro t
    rw [hterms]
    unfold activeTermsOf
    rw [(List.perm_insertionSort strLe _).mem_iff, List.mem_filter]
    simp
  · rw [build_matrix_data_eq]
    simp
  · intro row hrow
    rw [build_matrix_data_eq] at hrow ⊢
    simp only [List.mem_map] at hrow
    rcases hrow with ⟨i, _, hrow⟩
    simp [← hrow]
  · intro i j
    by_cases hi : i < (activeTermsOf tf tc).length
    · by_cases hj : j < (activeTermsOf tf tc).length
      · rw [matrix_cell_getD tf cooc tc i j hi hj, matrix_cell_getD tf cooc tc j i hj hi]
        exact matrixEntryOf_symm _ _ _ i j
      · rw [matrix_cell_getD_zero_right tf cooc tc i j (Nat.le_of_not_lt hj),
          matrix_cell_getD_zero_left tf cooc tc j i (Nat.le_of_not_lt hj)]
    · rw [matrix_cell_getD_zero_left tf cooc tc i j (Nat.le_of_not_lt hi),
        matrix_cell_getD_zero_right tf cooc tc j i (Nat.le_of_not_lt hi)]
  · intro i hi
    rw [hterms] at hi ⊢
    rw [matrix_cell_getD tf cooc tc i i hi hi]
    unfold matrixEntryOf
    simp
  · intro i j hij
    by_cases hi : i < (activeTermsOf tf tc).length
    · by_cases hj : j < (activeTermsOf tf tc).length
      · have hbd := (maxCoOf_bounds
          ((List.range (activeTermsOf tf tc).length).map (fun i =>
            (List.range (activeTermsOf tf tc).length).map
              (fun j => matrixEntryOf (activeTermsOf tf tc) cooc tc i j)))
          (activeTermsOf tf tc).length).1
        have h1 := hbd i (List.mem_range.mpr hi) j (List.mem_range.mpr hj) hij
        rw [build_matrix_data_eq]
        exact h1
      · rw [matrix_cell_getD_zero_right tf cooc tc i j (Nat.le_of_not_lt hj)]
        exact Nat.zero_le _
    · rw [matrix_cell_getD_zero_left tf cooc tc i j (Nat.le_of_not_lt hi)]
      exact Nat.zero_le _
  · have hbd := (maxCoOf_bounds
      ((List.range (activeTermsOf tf tc).length).map (fun i =>
        (List.range (activeTermsOf tf tc).length).map
          (fun j => matrixEntryOf (activeTermsOf tf tc) cooc tc i j)))
      (activeTermsOf tf tc).length).2
    rcases hbd with h | ⟨i, _, j, _, hij, hv⟩
    · left
      rw [build_matrix_data_eq]
      exact h
    · right
      refine ⟨i, j, hij, ?_⟩
      rw [build_matrix_data_eq]
      exact hv

/-- Witness for C10 at a concrete input: terms `["b", "a"]` with positive counts sort
to `["a", "b"]`, and the diagonal cell `(0, 0)` holds term `a`'s own count. -/
theorem matrix_square_symmetric_diag_max_witness :
    0 < (build_matrix_data ["b", "a"] [(("a", "b"), 3)] [("a", 2), ("b", 5)]).terms.length ∧
    ((build_matrix_data ["b", "a"] [(("a", "b"), 3)]
        [("a", 2), ("b", 5)]).matrix.getD 0 []).getD 0 0 =
      alookupD ((build_matrix_data ["b", "a"] [(("a", "b"), 3)]
        [("a", 2), ("b", 5)]).terms.getD 0 "") [("a", 2), ("b", 5)] 0 :=
  ⟨by decide,
    (matrix_square_symmetric_diag_max ["b", "a"] [(("a", "b"), 3)]
      [("a", 2), ("b", 5)]).2.2.2.1 0 (by decide)⟩

end Cooccurrence

namespace IWAC

theorem one_lt_length_of_two_mem {α : Type} {a b : α} {l : List α}
    (ha : a ∈ l) (hb : b ∈ l) (hab : a ≠ b) : 1 < l.length := by
  cases l with
  | nil => exact absurd ha (List.not_mem_nil _)
  | cons x rest =>
    cases rest with
    | nil =>
      have h1 : a = x := by simpa using ha
      have h2 : b = x := by simpa using hb
      exact absurd (h1.trans h2.symm) hab
    | cons y rest' =>
      simp only [List.length_cons]
      omega

theorem strLtB_irrefl (a : String) : strLtB a a = false := charsLtB_irrefl a.data

end IWAC

namespace BuildNetworks

open IWAC

/-- The weight recorded for a canonical pair in the edge accumulator (`0` when the pair
is absent). -/
def accWeight (acc : EdgeAcc) (k : String × String) : ℕ :=
  ((alookup k acc).map (fun r => r.weight)).getD 0

theorem accWeight_updAssoc (k k' : String × String) (init : EdgeRec)
    (f : EdgeRec → EdgeRec) (hinit : init.weight = 1)
    (hf : ∀ r, (f r).weight = r.weight + 1) (acc : EdgeAcc) :
    accWeight (updAssoc k' init f acc) k = accWeight acc k + if k' = k then 1 else 0 := by
  by_cases h : k' = k
  · subst h
    rw [accWeight, alookup_updAssoc, if_pos rfl]
    cases hx : alookup k' acc with
    | none => simp [accWeight, hx, hinit]
    | some r => simp [accWeight, hx, hf r]
  · rw [accWeight, alookup_updAssoc, if_neg h, if_neg h]
    simp [accWeight]

theorem accWeight_foldl (ps : List (String × String))
    (initF : String × String → EdgeRec) (fF : String × String → EdgeRec → EdgeRec)
    (hinit : ∀ p, (initF p).weight = 1)
    (hf : ∀ p r, (fF p r).weight = r.weight + 1) (acc : EdgeAcc) (k : String × String) :
    accWeight (ps.foldl (fun acc p => updAssoc p (initF p) (fF p) acc) acc) k =
      accWeight acc k + ps.count k := by
  induction ps generalizing acc with
  | nil => simp
  | cons p rest ih =>
    rw [List.foldl_cons, ih, accWeight_updAssoc k p (initF p) (fF p) (hinit p) (hf p),
      List.count_cons]
    by_cases h : p = k <;> simp [h] <;> omega

/-- C6 (amended, `build_networks.py` part): within one article, same-type pairing adds
exactly one co-occurrence count to every unordered pair of *distinct* entities of the
type present in the article (the 2-combinations of the set, keyed canonically with
`k.1 < k.2`), and touches no other pair — in particular it never produces a self-pair.
(The spatial variant violates this; see the counterexample.) -/
theorem sameTypePairs_weight (aid t : String) (nodeset : List String) (acc : EdgeAcc)
    (hnd : nodeset.Nodup) (k : String × String) :
    accWeight (sameTypePairs aid t nodeset acc) k =
      accWeight acc k +
        if k.1 ∈ nodeset ∧ k.2 ∈ nodeset ∧ strLtB k.1 k.2 = true then 1 else 0 := by
  unfold sameTypePairs
  by_cases hlen : nodeset.length < 2
  · rw [if_pos hlen]
    have hcond : ¬ (k.1 ∈ nodeset ∧ k.2 ∈ nodeset ∧ strLtB k.1 k.2 = true) := by
      rintro ⟨h1, h2, h3⟩
      have hne : k.1 ≠ k.2 := by
        intro heq
        rw [heq, strLtB_irrefl] at h3
        exact absurd h3 (by simp)
      exact absurd (one_lt_length_of_two_mem h1 h2 hne) (by omega)
    rw [if_neg hcond]
    omega
  · rw [if_neg hlen]
    have hfold :
        accWeight ((ltPairs (List.insertionSort strLe nodeset)).foldl
          (fun acc p =>
            updAssoc p
              { source := p.1, target := p.2, etype := t ++ "-" ++ t,
                weight := 1, articleIds := [aid] }
              (fun r =>
                { r with weight := r.weight + 1,
                         articleIds :=
                           if ¬ r.articleIds.getLast? = some aid then
                             r.articleIds ++ [aid]
                           else r.articleIds })
              acc) acc) k =
          accWeight acc k + (ltPairs (List.insertionSort strLe nodeset)).count k :=
      accWeight_foldl _ _ _ (fun _ => rfl) (fun _ _ => rfl) acc k
    rw [hfold]
    have hsorted : (List.insertionSort strLe nodeset).Pairwise strLe :=
      List.sorted_insertionSort strLe nodeset
    have hnd' : (List.insertionSort strLe nodeset).Nodup :=
      (List.perm_insertionSort strLe nodeset).nodup_iff.mpr hnd
    have hpw : (List.insertionSort strLe nodeset).Pairwise
        (fun a b => strLtB a b = true) :=
      pairwise_strLtB_of_sorted_nodup hsorted hnd'
    have hcount := count_ltPairs (fun a b : String => strLtB a b = true)
      strLtB_asymm' k.1 k.2 (List.insertionSort strLe nodeset) hpw
    have hmem : ∀ x : String, x ∈ List.insertionSort strLe nodeset ↔ x ∈ nodeset :=
      fun x => (List.perm_insertionSort strLe nodeset).mem_iff
    rw [show ((k.1 : String), (k.2 : String)) = k from rfl] at hcount
    rw [hcount]
    by_cases hc : k.1 ∈ nodeset ∧ k.2 ∈ nodeset ∧ strLtB k.1 k.2 = true
    · rw [if_pos ⟨(hmem k.1).mpr hc.1, (hmem k.2).mpr hc.2.1, hc.2.2⟩, if_pos hc]
    · have hc' : ¬ (k.1 ∈ List.insertionSort strLe nodeset ∧
          k.2 ∈ List.insertionSort strLe nodeset ∧ strLtB k.1 k.2 = true) := by
        rintro ⟨h1, h2, h3⟩
        exact hc ⟨(hmem k.1).mp h1, (hmem k.2).mp h2, h3⟩
      rw [if_neg hc', if_neg hc]

/-- Witness for C6's amended theorem: a document with same-type entities
`{x1, x2, x3}` contributes weight 1 to the pair `(x1, x2)`. -/
theorem sameTypePairs_weight_witness :
    (["x1", "x2", "x3"] : List String).Nodup ∧
    accWeight (sameTypePairs "a1" "person" ["x1", "x2", "x3"] []) ("x1", "x2") = 1 :=
  ⟨by decide,
    (sameTypePairs_weight "a1" "person" ["x1", "x2", "x3"] [] (by decide)
      ("x1", "x2")).trans (by decide)⟩

end BuildNetworks

namespace Spatial

/-- Counterexample for C6: in `build_spatial_networks.py` the same-type pair loop runs
over the article's location-occurrence *list*; an article whose `spatial` field repeats
a name (`"Accra|Accra"`) produces a self-pair — so it is not true that the pairs formed
are always 2-combinations of a set with no self-pair. -/
theorem spatial_self_pair_counterexample :
    ¬ (∀ p ∈ spatialEdgeAcc
        (articleToLocations (nodeByName [("location:1", "Accra")])
          [("X", "Accra|Accra")]), p.1.1 ≠ p.1.2) := by
  decide

end Spatial

namespace IWAC

theorem foldl_preserve {σ α : Type} (P : σ → Prop) (step : σ → α → σ) (l : List α)
    (init : σ) (hstep : ∀ s x, P s → P (step s x)) (hinit : P init) :
    P (l.foldl step init) := by
  induction l generalizing init with
  | nil => exact hinit
  | cons x rest ih => exact ih (step init x) (hstep init x hinit)

theorem updAssoc_preserve {α β : Type} [DecidableEq α] (P : β → Prop) (k : α)
    (init : β) (f : β → β) (hinit : P init) (hf : ∀ r, P r → P (f r)) :
    ∀ (acc : List (α × β)), (∀ e ∈ acc, P e.2) → ∀ e ∈ updAssoc k init f acc, P e.2 := by
  intro acc
  induction acc with
  | nil =>
    intro _ e he
    simp only [updAssoc, List.mem_singleton] at he
    rw [he]
    exact hinit
  | cons p rest ih =>
    intro hacc e he
    by_cases h : p.1 = k
    · simp only [updAssoc] at he
      obtain ⟨a, v⟩ := p
      rw [if_pos h] at he
      rcases List.mem_cons.mp he with he | he
      · rw [he]
        exact hf v (hacc (a, v) (List.mem_cons_self _ _))
      · exact hacc e (List.mem_cons_of_mem _ he)
    · simp only [updAssoc] at he
      obtain ⟨a, v⟩ := p
      rw [if_neg h] at he
      rcases List.mem_cons.mp he with he | he
      · rw [he]
        exact hacc (a, v) (List.mem_cons_self _ _)
      · exact ih (fun e' he' => hacc e' (List.mem_cons_of_mem _ he')) e he

theorem chain_ne_append_getLast {l : List String} {a : String}
    (hc : l.Chain' (· ≠ ·)) (hlast : ¬ l.getLast? = some a) :
    (l ++ [a]).Chain' (· ≠ ·) := by
  rw [List.chain'_append]
  refine ⟨hc, List.chain'_singleton a, ?_⟩
  intro x hx y hy
  simp only [List.head?_cons] at hy
  cases hy
  intro hxa
  rw [hxa] at hx
  exact hlast hx

end IWAC

namespace BuildNetworks

open IWAC

/-- The invariant on accumulator records: no two consecutive contributing article ids
are equal. -/
def ChainNe (r : EdgeRec) : Prop := r.articleIds.Chain' (· ≠ ·)

theorem accumulate_edge_chain (aid t1 t2 : String) (aNodes bNodes : List String)
    (acc : EdgeAcc) (hacc : ∀ e ∈ acc, ChainNe e.2) :
    ∀ e ∈ accumulate_edge aid t1 t2 aNodes bNodes acc, ChainNe e.2 := by
  unfold accumulate_edge
  refine foldl_preserve (fun acc => ∀ e ∈ acc, ChainNe e.2) _ aNodes acc ?_ hacc
  intro s n1 hs
  refine foldl_preserve (fun acc => ∀ e ∈ acc, ChainNe e.2) _ bNodes s ?_ hs
  intro s' n2 hs'
  refine updAssoc_preserve ChainNe _ _ _ ?_ ?_ s' hs'
  · exact List.chain'_singleton aid
  · intro r hr
    unfold ChainNe at *
    dsimp only
    by_cases hcond : r.articleIds = [] ∨ ¬ r.articleIds.getLast? = some aid
    · rw [if_pos hcond]
      rcases hcond with hnil | hlast
      · rw [hnil]
        exact List.chain'_singleton aid
      · exact chain_ne_append_getLast hr hlast
    · rw [if_neg hcond]
      exact hr

theorem sameTypePairs_chain (aid t : String) (nodeset : List String)
    (acc : EdgeAcc) (hacc : ∀ e ∈ acc, ChainNe e.2) :
    ∀ e ∈ sameTypePairs aid t nodeset acc, ChainNe e.2 := by
  unfold sameTypePairs
  by_cases hlen : nodeset.length < 2
  · rw [if_pos hlen]
    exact hacc
  · rw [if_neg hlen]
    refine foldl_preserve (fun acc => ∀ e ∈ acc, ChainNe e.2) _ _ acc ?_ hacc
    intro s p hs
    refine updAssoc_preserve ChainNe _ _ _ ?_ ?_ s hs
    · exact List.chain'_singleton aid
    · intro r hr
      unfold ChainNe at *
      dsimp only
      by_cases hcond : ¬ r.articleIds.getLast? = some aid
      · rw [if_pos hcond]
        exact chain_ne_append_getLast hr hcond
      · rw [if_neg hcond]
        exact hr

/-- C9 (amended, `build_networks.py` part): after accumulation, every edge record's
contributing-article list has no two consecutive equal entries — the dedup is performed
only against the immediately preceding appended id.  (The spatial variant appends with
no dedup at all and the subject variant keeps a full set; see the counterexample.) -/
theorem accumulateAll_articleIds_adjacent_dedup
    (articles : List (String × List (String × List String)))
    (typePairs : List (String × String)) (noCrossOnly : Bool) :
    ∀ e ∈ accumulateAll articles typePairs noCrossOnly,
      e.2.articleIds.Chain' (· ≠ ·) := by
  unfold accumulateAll
  have hnil : ∀ e ∈ ([] : EdgeAcc), ChainNe e.2 := by
    intro e he
    exact absurd he (List.not_mem_nil _)
  refine foldl_preserve (fun acc : EdgeAcc => ∀ e ∈ acc, ChainNe e.2) _ articles [] ?_ hnil
  intro s a hs
  have hcross : ∀ e ∈ typePairs.foldl (fun acc tp =>
      match alookup tp.1 a.2, alookup tp.2 a.2 with
      | some la, some lb =>
          if la ≠ [] ∧ lb ≠ [] then accumulate_edge a.1 tp.1 tp.2 la lb acc else acc
      | _, _ => acc) s, ChainNe e.2 := by
    refine foldl_preserve (fun acc : EdgeAcc => ∀ e ∈ acc, ChainNe e.2) _ typePairs s ?_ hs
    intro s' tp hs'
    cases h1 : alookup tp.1 a.2 with
    | none => exact hs'
    | some la =>
      cases h2 : alookup tp.2 a.2 with
      | none => exact hs'
      | some lb =>
        dsimp only
        by_cases hne : la ≠ [] ∧ lb ≠ []
        · rw [if_pos hne]
          exact accumulate_edge_chain a.1 tp.1 tp.2 la lb s' hs'
        · rw [if_neg hne]
          exact hs'
  by_cases hflag : noCrossOnly = true
  · rw [hflag]
    simp only [if_pos rfl]
    refine foldl_preserve (fun acc : EdgeAcc => ∀ e ∈ acc, ChainNe e.2) _ a.2 _ ?_ hcross
    intro s' tb hs'
    exact sameTypePairs_chain a.1 tb.1 tb.2 s' hs'
  · have hflag' : noCrossOnly = false := by
      cases noCrossOnly
      · rfl
      · exact absurd rfl hflag
    rw [hflag']
    simp only [Bool.false_eq_true, if_false]
    exact hcross

/-- Witness for C9's amended theorem at a concrete accumulation: one article tagging a
person and an organization yields an edge whose article list `["a1"]` trivially has no
consecutive duplicates. -/
theorem accumulateAll_articleIds_adjacent_dedup_witness :
    ((("organization:2", "person:1"),
        ({ source := "organization:2", target := "person:1",
           etype := "person-organization", weight := 1,
           articleIds := ["a1"] } : EdgeRec)) ∈
      accumulateAll [("a1", [("person", ["person:1"]), ("organization", ["organization:2"])])]
        defaultTypePairs false) ∧
    (("organization:2", "person:1"),
        ({ source := "organization:2", target := "person:1",
           etype := "person-organization", weight := 1,
           articleIds := ["a1"] } : EdgeRec)).2.articleIds.Chain' (· ≠ ·) :=
  ⟨by decide,
    accumulateAll_articleIds_adjacent_dedup
      [("a1", [("person", ["person:1"]), ("organization", ["organization:2"])])]
      defaultTypePairs false _ (by decide)⟩

end BuildNetworks

namespace Spatial

/-- Counterexample for C9: the spatial variant appends the contributing article id with
no deduplication at all, so an article whose location list repeats a pair (spatial field
`"Accra|Lome|Accra"`) leaves two consecutive equal entries in `articleIds`. -/
theorem spatial_articleIds_consecutive_dup_counterexample :
    ¬ (∀ p ∈ spatialEdgeAcc
        (articleToLocations
          (nodeByName [("location:1", "Accra"), ("location:2", "Lome")])
          [("X", "Accra|Lome|Accra")]),
        p.2.articleIds.Chain' (· ≠ ·)) := by
  intro h
  have hk := h (("location:1", "location:2"),
    { source := "location:1", target := "location:2", weight := 2,
      articleIds := ["X", "X"] }) (by decide)
  simp [List.chain'_cons] at hk

end Spatial

namespace IWAC

theorem alookup_mem {α β : Type} [DecidableEq α] {k : α} {v : β} :
    ∀ {l : List (α × β)}, alookup k l = some v → (k, v) ∈ l := by
  intro l
  induction l with
  | nil => intro h; cases h
  | cons p rest ih =>
    intro h
    obtain ⟨a, w⟩ := p
    by_cases hk : a = k
    · subst hk
      simp only [alookup, if_pos rfl] at h
      cases h
      exact List.mem_cons_self _ _
    · simp only [alookup, if_neg hk] at h
      exact List.mem_cons_of_mem _ (ih h)

theorem snd_mem_enum {α : Type} {l : List α} {p : ℕ × α} (h : p ∈ l.enum) : p.2 ∈ l := by
  have := List.mem_map_of_mem Prod.snd h
  rwa [List.enum_map_snd] at this

end IWAC

namespace BuildNetworks

open IWAC

theorem degreeAt_eq_countP (nid : String) :
    ∀ (es : List EdgeRec), (∀ e ∈ es, e.source ≠ e.target) → ∀ init : ℕ,
      es.foldl (fun d e => d + (if e.source = nid then 1 else 0) +
        (if e.target = nid then 1 else 0)) init =
      init + es.countP (fun e => decide (e.source = nid ∨ e.target = nid)) := by
  intro es
  induction es with
  | nil => intro _ init; simp
  | cons e rest ih =>
    intro hself init
    rw [List.foldl_cons, ih (fun x hx => hself x (List.mem_cons_of_mem _ hx)),
      List.countP_cons]
    have hind : (if e.source = nid then 1 else 0) + (if e.target = nid then 1 else 0) =
        if e.source = nid ∨ e.target = nid then 1 else 0 := by
      by_cases h1 : e.source = nid <;> by_cases h2 : e.target = nid <;>
        simp [h1, h2]
      exact absurd (h1.trans h2.symm) (hself e (List.mem_cons_self _ _))
    simp only [decide_eq_true_eq]
    omega

theorem strengthAt_eq_sum (nid : String) :
    ∀ (es : List EdgeRec), (∀ e ∈ es, e.source ≠ e.target) → ∀ init : ℕ,
      es.foldl (fun s e => s + (if e.source = nid then e.weight else 0) +
        (if e.target = nid then e.weight else 0)) init =
      init + ((es.filter (fun e => decide (e.source = nid ∨ e.target = nid))).map
        (fun e => e.weight)).sum := by
  intro es
  induction es with
  | nil => intro _ init; simp
  | cons e rest ih =>
    intro hself init
    rw [List.foldl_cons, ih (fun x hx => hself x (List.mem_cons_of_mem _ hx)),
      List.filter_cons]
    have hind : (if e.source = nid then e.weight else 0) +
        (if e.target = nid then e.weight else 0) =
        if e.source = nid ∨ e.target = nid then e.weight else 0 := by
      by_cases h1 : e.source = nid <;> by_cases h2 : e.target = nid <;>
        simp [h1, h2]
      exact absurd (h1.trans h2.symm) (hself e (List.mem_cons_self _ _))
    by_cases hc : e.source = nid ∨ e.target = nid
    · have hd : (decide (e.source = nid ∨ e.target = nid)) = true := by simpa using hc
      rw [if_pos hd] at *
      rw [if_pos hc] at hind
      simp only [List.map_cons, List.sum_cons]
      omega
    · have hd : ¬ ((decide (e.source = nid ∨ e.target = nid)) = true) := by simpa using hc
      rw [if_neg hd] at *
      rw [if_neg hc] at hind
      omega

theorem rankNodes_mem {ns : List Node} {n : Node} (hn : n ∈ rankNodes ns) :
    ∃ m ∈ ns, n.id = m.id ∧ n.ntype = m.ntype ∧ n.label = m.label ∧
      n.count = m.count ∧ n.degree = m.degree ∧ n.strength = m.strength := by
  unfold rankNodes at hn
  rcases List.mem_map.mp hn with ⟨p, hp, hpn⟩
  have hsnd : p.2 ∈ List.insertionSort (fun a b => score b ≤ score a) ns :=
    snd_mem_enum hp
  have hmem : p.2 ∈ ns :=
    (List.perm_insertionSort (fun a b => score b ≤ score a) ns).mem_iff.mp hsnd
  exact ⟨p.2, hmem, by rw [← hpn], by rw [← hpn], by rw [← hpn], by rw [← hpn],
    by rw [← hpn], by rw [← hpn]⟩

theorem rankNodes_map_id (ns : List Node) :
    List.Perm ((rankNodes ns).map (fun n => n.id)) (ns.map (fun n => n.id)) := by
  unfold rankNodes
  rw [List.map_map]
  have h1 : ((List.insertionSort (fun a b => score b ≤ score a) ns).enum.map
      ((fun n => n.id) ∘ (fun p : ℕ × Node => { p.2 with labelPriority := p.1 + 1 }))) =
      (List.insertionSort (fun a b => score b ≤ score a) ns).enum.map
        (fun p : ℕ × Node => p.2.id) := by
    apply List.map_congr_left
    intro p _
    rfl
  rw [h1]
  have h2 : ((List.insertionSort (fun a b => score b ≤ score a) ns).enum.map
      (fun p : ℕ × Node => p.2.id)) =
      (List.insertionSort (fun a b => score b ≤ score a) ns).map (fun n => n.id) := by
    rw [show (fun p : ℕ × Node => p.2.id) = (fun n : Node => n.id) ∘ Prod.snd from rfl,
      ← List.map_map, List.enum_map_snd]
  rw [h2]
  exact (List.perm_insertionSort _ ns).map _

theorem nodesFor_mem {nodeInfo : List (String × NodeInfo)} {es : List EdgeRec}
    {usedOrder : List String} {n : Node}
    (hn : n ∈ nodesFor nodeInfo es usedOrder) :
    ∃ nid ∈ usedOrder, ∃ ni, alookup nid nodeInfo = some ni ∧
      n = { id := ni.id, ntype := ni.ntype, label := ni.label, count := ni.count,
            degree := degreeAt es nid, strength := strengthAt es nid,
            labelPriority := 0 } := by
  unfold nodesFor at hn
  rcases List.mem_filterMap.mp hn with ⟨nid, hnid, hsome⟩
  cases hni : alookup nid nodeInfo with
  | none => rw [hni] at hsome; cases hsome
  | some ni =>
    rw [hni] at hsome
    simp only [Option.map_some'] at hsome
    cases hsome
    exact ⟨nid, hnid, ni, hni, rfl⟩

/-- The retained (post-pruning), weight-sorted edge records of one run. -/
def retainedEdges (articles : List (String × List (String × List String)))
    (typePairs : List (String × String)) (noCrossOnly : Bool) (weightMin : ℤ) :
    List EdgeRec :=
  sortEdges (prunedEdges (accumulateAll articles typePairs noCrossOnly) weightMin)

/-- C3 (amended, `build_networks.py` part): every output node's `degree` equals the
number of retained edges incident to it and its `strength` equals the sum of their
weights, provided no retained edge is a self-loop (true of every run whose type pairs
relate distinct types, as all default pairs do; the degree/strength dicts are computed
from the pruned edge list only).  The topic network violates the claim: see the
counterexample. -/
theorem buildNetworks_degree_strength
    (articles : List (String × List (String × List String)))
    (nodeInfo : List (String × NodeInfo)) (typePairs : List (String × String))
    (noCrossOnly : Bool) (weightMin : ℤ) (topLabels : ℕ) (usedOrder : List String)
    (now : String)
    (hkey : ∀ p ∈ nodeInfo, p.2.id = p.1)
    (hself : ∀ e ∈ retainedEdges articles typePairs noCrossOnly weightMin,
      e.source ≠ e.target) :
    ∀ n ∈ (buildNetworks articles nodeInfo typePairs noCrossOnly weightMin topLabels
        usedOrder now).nodes,
      n.degree = (buildNetworks articles nodeInfo typePairs noCrossOnly weightMin
          topLabels usedOrder now).edges.countP
          (fun e => decide (e.source = n.id ∨ e.target = n.id)) ∧
      n.strength = (((buildNetworks articles nodeInfo typePairs noCrossOnly weightMin
          topLabels usedOrder now).edges.filter
          (fun e => decide (e.source = n.id ∨ e.target = n.id))).map
          (fun e => e.weight)).sum := by
  intro n hn
  simp only [buildNetworks] at hn ⊢
  rcases rankNodes_mem hn with ⟨m, hm, hid, -, -, -, hdeg, hstr⟩
  rcases nodesFor_mem hm with ⟨nid, hnid, ni, hlook, hmeq⟩
  have hniid : ni.id = nid := hkey (nid, ni) (alookup_mem hlook)
  subst hmeq
  simp only at hid hdeg hstr
  rw [hniid] at hid
  constructor
  · rw [hdeg, List.countP_map]
    have hpred : ((fun e : EdgeOut => decide (e.source = n.id ∨ e.target = n.id)) ∘
        mkEdgeOut (maxWeight (sortEdges (prunedEdges
          (accumulateAll articles typePairs noCrossOnly) weightMin)))) =
        (fun e : EdgeRec => decide (e.source = n.id ∨ e.target = n.id)) := by
      funext e
      simp [Function.comp, mkEdgeOut]
    rw [hpred, hid]
    have := degreeAt_eq_countP nid
      (sortEdges (prunedEdges (accumulateAll articles typePairs noCrossOnly) weightMin))
      hself 0
    rw [degreeAt, this, Nat.zero_add]
  · rw [hstr, List.filter_map, List.map_map]
    have hpred : ((fun e : EdgeOut => decide (e.source = n.id ∨ e.target = n.id)) ∘
        mkEdgeOut (maxWeight (sortEdges (prunedEdges
          (accumulateAll articles typePairs noCrossOnly) weightMin)))) =
        (fun e : EdgeRec => decide (e.source = n.id ∨ e.target = n.id)) := by
      funext e
      simp [Function.comp, mkEdgeOut]
    have hw : ((fun e : EdgeOut => e.weight) ∘
        mkEdgeOut (maxWeight (sortEdges (prunedEdges
          (accumulateAll articles typePairs noCrossOnly) weightMin)))) =
        (fun e : EdgeRec => e.weight) := by
      funext e
      simp [Function.comp, mkEdgeOut]
    rw [hpred, hw, hid]
    have := strengthAt_eq_sum nid
      (sortEdges (prunedEdges (accumulateAll articles typePairs noCrossOnly) weightMin))
      hself 0
    rw [strengthAt, this, Nat.zero_add]

/-- Witness for C3's amended theorem: two articles tagging the same person and
organization produce one retained edge of weight 2; the theorem applies with both
hypotheses discharged by evaluation. -/
theorem buildNetworks_degree_strength_witness :
    (∀ p ∈ [("p:1", (⟨"p:1", "person", "P", 3⟩ : NodeInfo)),
        ("o:2", (⟨"o:2", "organization", "O", 5⟩ : NodeInfo))], p.2.id = p.1) ∧
    (∀ n ∈ (buildNetworks
        [("a1", [("person", ["p:1"]), ("organization", ["o:2"])]),
         ("a2", [("person", ["p:1"]), ("organization", ["o:2"])])]
        [("p:1", ⟨"p:1", "person", "P", 3⟩), ("o:2", ⟨"o:2", "organization", "O", 5⟩)]
        defaultTypePairs false 2 60 ["o:2", "p:1"] "t").nodes,
      n.degree = (buildNetworks
        [("a1", [("person", ["p:1"]), ("organization", ["o:2"])]),
         ("a2", [("person", ["p:1"]), ("organization", ["o:2"])])]
        [("p:1", ⟨"p:1", "person", "P", 3⟩), ("o:2", ⟨"o:2", "organization", "O", 5⟩)]
        defaultTypePairs false 2 60 ["o:2", "p:1"] "t").edges.countP
          (fun e => decide (e.source = n.id ∨ e.target = n.id)) ∧
      n.strength = (((buildNetworks
        [("a1", [("person", ["p:1"]), ("organization", ["o:2"])]),
         ("a2", [("person", ["p:1"]), ("organization", ["o:2"])])]
        [("p:1", ⟨"p:1", "person", "P", 3⟩), ("o:2", ⟨"o:2", "organization", "O", 5⟩)]
        defaultTypePairs false 2 60 ["o:2", "p:1"] "t").edges.filter
          (fun e => decide (e.source = n.id ∨ e.target = n.id))).map
          (fun e => e.weight)).sum) :=
  ⟨by decide,
    buildNetworks_degree_strength
      [("a1", [("person", ["p:1"]), ("organization", ["o:2"])]),
       ("a2", [("person", ["p:1"]), ("organization", ["o:2"])])]
      [("p:1", ⟨"p:1", "person", "P", 3⟩), ("o:2", ⟨"o:2", "organization", "O", 5⟩)]
      defaultTypePairs false 2 60 ["o:2", "p:1"] "t" (by decide) (by decide)⟩

end BuildNetworks

namespace TopicNetwork

/-- Counterexample for C3: in the topic network an article node's `degree` is fixed at 1
when the node is created, so an article assigned to two topics (same trailing url
segment, hence the same article id) ends with `degree = 1` although two retained edges
are incident to it. -/
theorem topic_article_degree_counterexample :
    ¬ (∀ o : TOutput,
        build_topic_network (fun _ => 0) 50 (3 / 10)
          [⟨1, "T1", 1⟩, ⟨2, "T2", 1⟩]
          [(1, [⟨1 / 2, "x/u1", "t1", "", "", ""⟩]),
           (2, [⟨3 / 5, "y/u1", "t2", "", "", ""⟩])] "t" = some o →
        ∀ n ∈ o.nodes,
          n.degree = o.edges.countP
            (fun e => decide (e.source = n.nid ∨ e.target = n.nid))) := by
  intro h
  have hsome : build_topic_network (fun _ => 0) 50 (3 / 10)
      [⟨1, "T1", 1⟩, ⟨2, "T2", 1⟩]
      [(1, [⟨1 / 2, "x/u1", "t1", "", "", ""⟩]),
       (2, [⟨3 / 5, "y/u1", "t2", "", "", ""⟩])] "t" =
      some ((build_topic_network (fun _ => 0) 50 (3 / 10)
        [⟨1, "T1", 1⟩, ⟨2, "T2", 1⟩]
        [(1, [⟨1 / 2, "x/u1", "t1", "", "", ""⟩]),
         (2, [⟨3 / 5, "y/u1", "t2", "", "", ""⟩])] "t").getD
          ⟨[], [], ⟨"", 0, 0, 0, 0, 0, 0, 0, 0, 1⟩⟩) := by
    with_unfolding_all decide
  have hq := h _ hsome
  revert hq
  with_unfolding_all decide

end TopicNetwork

namespace BuildNetworks

open IWAC

/-- C4 (amended, `build_networks.py` part): a node id appears in the output exactly when
it is an endpoint of a retained edge.  The hypotheses state the two run invariants:
`usedOrder` enumerates the `used_ids` set (every listed id is an endpoint and every
endpoint is listed) and `node_info` covers every endpoint and maps each key to a record
with that id — both established by `build_article_index`, which populates
`article_to_entities` and `node_info` from the same entity records.  The topic network
violates the claim by appending topic nodes unconditionally; see the counterexample. -/
theorem buildNetworks_node_iff_endpoint
    (articles : List (String × List (String × List String)))
    (nodeInfo : List (String × NodeInfo)) (typePairs : List (String × String))
    (noCrossOnly : Bool) (weightMin : ℤ) (topLabels : ℕ) (usedOrder : List String)
    (now : String)
    (hkey : ∀ p ∈ nodeInfo, p.2.id = p.1)
    (husedm : ∀ i ∈ usedOrder,
      ∃ e ∈ retainedEdges articles typePairs noCrossOnly weightMin,
        e.source = i ∨ e.target = i)
    (hcov : ∀ e ∈ retainedEdges articles typePairs noCrossOnly weightMin,
      (e.source ∈ usedOrder ∧ (alookup e.source nodeInfo).isSome = true) ∧
      (e.target ∈ usedOrder ∧ (alookup e.target nodeInfo).isSome = true)) :
    ∀ i : String,
      (∃ n ∈ (buildNetworks articles nodeInfo typePairs noCrossOnly weightMin topLabels
          usedOrder now).nodes, n.id = i) ↔
      (∃ e ∈ (buildNetworks articles nodeInfo typePairs noCrossOnly weightMin topLabels
          usedOrder now).edges, e.source = i ∨ e.target = i) := by
  unfold retainedEdges at husedm hcov
  intro i
  simp only [buildNetworks]
  constructor
  · rintro ⟨n, hn, hni⟩
    rcases rankNodes_mem hn with ⟨m, hm, hid, -, -, -, -, -⟩
    rcases nodesFor_mem hm with ⟨nid, hnid, ni, hlook, hmeq⟩
    have hnn : ni.id = nid := hkey (nid, ni) (alookup_mem hlook)
    have hiid : nid = i := by
      rw [← hni, hid, hmeq]
      exact hnn.symm
    rcases husedm nid hnid with ⟨e, he, hend⟩
    refine ⟨mkEdgeOut _ e, List.mem_map_of_mem _ he, ?_⟩
    rw [← hiid]
    simpa [mkEdgeOut] using hend
  · rintro ⟨e', he', hend⟩
    rcases List.mem_map.mp he' with ⟨e, he, hee⟩
    have hend' : e.source = i ∨ e.target = i := by
      rw [← hee] at hend
      simpa [mkEdgeOut] using hend
    have hic : i ∈ usedOrder ∧ (alookup i nodeInfo).isSome = true := by
      rcases hend' with h | h
      · have hc := (hcov e he).1
        rw [h] at hc
        exact hc
      · have hc := (hcov e he).2
        rw [h] at hc
        exact hc
    rcases Option.isSome_iff_exists.mp hic.2 with ⟨ni, hni⟩
    have hnn : ni.id = i := hkey (i, ni) (alookup_mem hni)
    have h1 : i ∈ (nodesFor nodeInfo
        (sortEdges (prunedEdges (accumulateAll articles typePairs noCrossOnly) weightMin))
        usedOrder).map (fun n => n.id) := by
      apply List.mem_map.mpr
      refine ⟨Node.mk ni.id ni.ntype ni.label ni.count
        (degreeAt (sortEdges (prunedEdges
          (accumulateAll articles typePairs noCrossOnly) weightMin)) i)
        (strengthAt (sortEdges (prunedEdges
          (accumulateAll articles typePairs noCrossOnly) weightMin)) i)
        0, List.mem_filterMap.mpr ⟨i, hic.1, ?_⟩, hnn⟩
      rw [hni]
      rfl
    have h2 : i ∈ (rankNodes (nodesFor nodeInfo
        (sortEdges (prunedEdges (accumulateAll articles typePairs noCrossOnly) weightMin))
        usedOrder)).map (fun n => n.id) :=
      (rankNodes_map_id _).mem_iff.mpr h1
    rcases List.mem_map.mp h2 with ⟨n, hn, hnid⟩
    exact ⟨n, hn, hnid⟩

/-- Witness for C4's amended theorem at a concrete run, instantiated at id `p:1`
(an endpoint of the single retained edge). -/
theorem buildNetworks_node_iff_endpoint_witness :
    ((∀ i ∈ ["o:2", "p:1"],
        ∃ e ∈ retainedEdges
          [("a1", [("person", ["p:1"]), ("organization", ["o:2"])]),
           ("a2", [("person", ["p:1"]), ("organization", ["o:2"])])]
          defaultTypePairs false 2, e.source = i ∨ e.target = i)) ∧
    ((∃ n ∈ (buildNetworks
        [("a1", [("person", ["p:1"]), ("organization", ["o:2"])]),
         ("a2", [("person", ["p:1"]), ("organization", ["o:2"])])]
        [("p:1", ⟨"p:1", "person", "P", 3⟩), ("o:2", ⟨"o:2", "organization", "O", 5⟩)]
        defaultTypePairs false 2 60 ["o:2", "p:1"] "t").nodes, n.id = "p:1") ↔
      (∃ e ∈ (buildNetworks
        [("a1", [("person", ["p:1"]), ("organization", ["o:2"])]),
         ("a2", [("person", ["p:1"]), ("organization", ["o:2"])])]
        [("p:1", ⟨"p:1", "person", "P", 3⟩), ("o:2", ⟨"o:2", "organization", "O", 5⟩)]
        defaultTypePairs false 2 60 ["o:2", "p:1"] "t").edges,
        e.source = "p:1" ∨ e.target = "p:1")) :=
  ⟨by decide,
    buildNetworks_node_iff_endpoint
      [("a1", [("person", ["p:1"]), ("organization", ["o:2"])]),
       ("a2", [("person", ["p:1"]), ("organization", ["o:2"])])]
      [("p:1", ⟨"p:1", "person", "P", 3⟩), ("o:2", ⟨"o:2", "organization", "O", 5⟩)]
      defaultTypePairs false 2 60 ["o:2", "p:1"] "t" (by decide) (by decide) (by decide)
      "p:1"⟩

end BuildNetworks

namespace TopicNetwork

/-- Counterexample for C4: the topic network appends every topic node unconditionally,
so a topic whose documents are all filtered out (probability below `min_prob`) appears
in the output as an isolated node that is the endpoint of no retained edge. -/
theorem topic_isolated_node_counterexample :
    ¬ (∀ o : TOutput,
        build_topic_network (fun _ => 0) 50 (3 / 10) [⟨1, "T1", 0⟩]
          [(1, [⟨1 / 10, "x/u1", "t1", "", "", ""⟩])] "t" = some o →
        ∀ n ∈ o.nodes, ∃ e ∈ o.edges, e.source = n.nid ∨ e.target = n.nid) := by
  intro h
  have hsome : build_topic_network (fun _ => 0) 50 (3 / 10) [⟨1, "T1", 0⟩]
      [(1, [⟨1 / 10, "x/u1", "t1", "", "", ""⟩])] "t" =
      some ((build_topic_network (fun _ => 0) 50 (3 / 10) [⟨1, "T1", 0⟩]
        [(1, [⟨1 / 10, "x/u1", "t1", "", "", ""⟩])] "t").getD
          ⟨[], [], ⟨"", 0, 0, 0, 0, 0, 0, 0, 0, 1⟩⟩) := by
    with_unfolding_all decide
  have hq := h _ hsome
  revert hq
  with_unfolding_all decide

end TopicNetwork

namespace BuildNetworks

open IWAC

theorem rankNodes_mem_getElem {ns : List Node} {u : Node} (hu : u ∈ rankNodes ns) :
    ∃ i, ∃ h : i < (List.insertionSort (fun a b => score b ≤ score a) ns).length,
      u = { (List.insertionSort (fun a b => score b ≤ score a) ns).get ⟨i, h⟩ with
            labelPriority := i + 1 } := by
  unfold rankNodes at hu
  rcases List.mem_iff_getElem.mp hu with ⟨i, hlen, hget⟩
  have hlen' : i < (List.insertionSort (fun a b => score b ≤ score a) ns).length := by
    simpa using hlen
  refine ⟨i, hlen', ?_⟩
  rw [← hget]
  rw [List.getElem_map, List.getElem_enum]
  simp [List.get_eq_getElem]

theorem score_update (m : Node) (k : ℕ) : score { m with labelPriority := k } = score m :=
  rfl

theorem rankNodes_priority_pos (ns : List Node) :
    ∀ n ∈ rankNodes ns, 1 ≤ n.labelPriority := by
  intro n hn
  rcases rankNodes_mem_getElem hn with ⟨i, hi, hni⟩
  rw [hni]
  exact Nat.succ_le_succ (Nat.zero_le i)

theorem rankNodes_score_mono (ns : List Node) :
    ∀ u ∈ rankNodes ns, ∀ v ∈ rankNodes ns,
      score v < score u → u.labelPriority < v.labelPriority := by
  haveI : IsTotal Node (fun a b => score b ≤ score a) :=
    ⟨fun a b => Nat.le_total (score b) (score a)⟩
  haveI : IsTrans Node (fun a b => score b ≤ score a) :=
    ⟨fun _ _ _ h1 h2 => Nat.le_trans h2 h1⟩
  intro u hu v hv hs
  rcases rankNodes_mem_getElem hu with ⟨i, hi, hui⟩
  rcases rankNodes_mem_getElem hv with ⟨j, hj, hvj⟩
  have hpu : u.labelPriority = i + 1 := by rw [hui]
  have hpv : v.labelPriority = j + 1 := by rw [hvj]
  have hsu : score u =
      score ((List.insertionSort (fun a b => score b ≤ score a) ns).get ⟨i, hi⟩) := by
    rw [hui, score_update]
  have hsv : score v =
      score ((List.insertionSort (fun a b => score b ≤ score a) ns).get ⟨j, hj⟩) := by
    rw [hvj, score_update]
  rw [hpu, hpv]
  by_contra hle
  push_neg at hle
  have hji : j ≤ i := by omega
  rcases Nat.lt_or_ge j i with hlt | hge
  · have hpw := List.pairwise_iff_get.mp
      (List.sorted_insertionSort (fun a b => score b ≤ score a) ns) ⟨j, hj⟩ ⟨i, hi⟩ hlt
    rw [← hsu, ← hsv] at hpw
    omega
  · have hij : i = j := by omega
    subst hij
    rw [hsu, hsv] at hs
    omega

end BuildNetworks

namespace SubjectCooc

open IWAC

theorem alookup_prioFrom :
    ∀ (l : List String) (k : ℕ) (s : String), s ∈ l →
      alookup s ((l.enumFrom k).map (fun p => (p.2, p.1))) = some (k + l.indexOf s) := by
  intro l
  induction l with
  | nil => intro k s h; exact absurd h (List.not_mem_nil _)
  | cons x rest ih =>
    intro k s hmem
    by_cases hx : x = s
    · subst hx
      simp [List.enumFrom, alookup, List.indexOf_cons_self]
    · have hs : s ∈ rest := by
        rcases List.mem_cons.mp hmem with h | h
        · exact absurd h.symm hx
        · exact h
      simp only [List.enumFrom, List.map_cons, alookup, if_neg hx]
      rw [ih (k + 1) s hs]
      congr 1
      rw [List.indexOf_cons_ne _ hx]
      omega

theorem alookup_prio (l : List String) (s : String) (hmem : s ∈ l) :
    alookup s (l.enum.map (fun p => (p.2, p.1))) = some (l.indexOf s) := by
  have := alookup_prioFrom l 0 s hmem
  simpa using this

theorem indexOf_sorted_mono (key : String → ℕ) (order : List String) (su sv : String)
    (hsu : su ∈ List.insertionSort (fun a b => key b ≤ key a) order)
    (hsv : sv ∈ List.insertionSort (fun a b => key b ≤ key a) order)
    (h : key sv < key su) :
    (List.insertionSort (fun a b => key b ≤ key a) order).indexOf su <
      (List.insertionSort (fun a b => key b ≤ key a) order).indexOf sv := by
  haveI : IsTotal String (fun a b => key b ≤ key a) := ⟨fun a b => Nat.le_total _ _⟩
  haveI : IsTrans String (fun a b => key b ≤ key a) :=
    ⟨fun _ _ _ h1 h2 => Nat.le_trans h2 h1⟩
  have hlu : (List.insertionSort (fun a b => key b ≤ key a) order).indexOf su <
      (List.insertionSort (fun a b => key b ≤ key a) order).length :=
    List.indexOf_lt_length.mpr hsu
  have hlv : (List.insertionSort (fun a b => key b ≤ key a) order).indexOf sv <
      (List.insertionSort (fun a b => key b ≤ key a) order).length :=
    List.indexOf_lt_length.mpr hsv
  have hgu : (List.insertionSort (fun a b => key b ≤ key a) order).get
      ⟨(List.insertionSort (fun a b => key b ≤ key a) order).indexOf su, hlu⟩ = su := by
    rw [List.get_eq_getElem]
    exact List.getElem_indexOf hlu
  have hgv : (List.insertionSort (fun a b => key b ≤ key a) order).get
      ⟨(List.insertionSort (fun a b => key b ≤ key a) order).indexOf sv, hlv⟩ = sv := by
    rw [List.get_eq_getElem]
    exact List.getElem_indexOf hlv
  by_contra hle
  push_neg at hle
  rcases Nat.lt_or_ge ((List.insertionSort (fun a b => key b ≤ key a) order).indexOf sv)
      ((List.insertionSort (fun a b => key b ≤ key a) order).indexOf su) with hlt | hge
  · have hpw := List.pairwise_iff_get.mp
      (List.sorted_insertionSort (fun a b => key b ≤ key a) order)
      ⟨_, hlv⟩ ⟨_, hlu⟩ hlt
    rw [hgu, hgv] at hpw
    omega
  · have heq : (List.insertionSort (fun a b => key b ≤ key a) order).indexOf su =
        (List.insertionSort (fun a b => key b ≤ key a) order).indexOf sv := by omega
    have hsusv : su = sv := by
      rw [← hgu, ← hgv]
      congr 1
      exact Fin.ext heq
    rw [hsusv] at h
    omega

/-- C7's subject-variant core: in `generate_subject_cooccurrence`, for any iteration
order of the `all_subjects` set, `labelPriority` is the 0-based rank under strength
descending: a strictly stronger node gets a strictly smaller priority, and when any
node exists some node has priority 0. -/
theorem subject_priority_zero_based_ranks (mkId : String → String)
    (subjOrder : List String) (records : List Record) (nowIso : String) :
    (∀ u ∈ (generate_subject_cooccurrence mkId subjOrder records nowIso).nodes,
      ∀ v ∈ (generate_subject_cooccurrence mkId subjOrder records nowIso).nodes,
        v.strength < u.strength → u.labelPriority < v.labelPriority) ∧
    ((generate_subject_cooccurrence mkId subjOrder records nowIso).nodes ≠ [] →
      ∃ u ∈ (generate_subject_cooccurrence mkId subjOrder records nowIso).nodes,
        u.labelPriority = 0) := by
  by_cases hew : edgeWeights (buildIndexes records).1 = []
  · constructor
    · intro u hu
      simp only [generate_subject_cooccurrence, hew, if_pos rfl] at hu
      exact absurd hu (List.not_mem_nil _)
    · intro hne
      simp only [generate_subject_cooccurrence, hew, if_pos rfl] at hne
      simp [emptySOutput] at hne
  · constructor
    · intro u hu v hv hs
      simp only [generate_subject_cooccurrence, if_neg hew] at hu hv hs ⊢
      rcases List.mem_map.mp hu with ⟨su, hsu, hsu2⟩
      rcases List.mem_map.mp hv with ⟨sv, hsv, hsv2⟩
      rw [← hsu2, ← hsv2] at hs ⊢
      simp only at hs ⊢
      have hsu3 : su ∈ List.insertionSort (fun a b =>
          alookupD b (degStr (edgeWeights (buildIndexes records).1)).2 0 ≤
            alookupD a (degStr (edgeWeights (buildIndexes records).1)).2 0) subjOrder :=
        (List.perm_insertionSort _ subjOrder).mem_iff.mpr hsu
      have hsv3 : sv ∈ List.insertionSort (fun a b =>
          alookupD b (degStr (edgeWeights (buildIndexes records).1)).2 0 ≤
            alookupD a (degStr (edgeWeights (buildIndexes records).1)).2 0) subjOrder :=
        (List.perm_insertionSort _ subjOrder).mem_iff.mpr hsv
      rw [alookupD, alookup_prio _ _ hsu3, alookupD, alookup_prio _ _ hsv3]
      exact indexOf_sorted_mono
        (fun s => alookupD s (degStr (edgeWeights (buildIndexes records).1)).2 0)
        subjOrder su sv hsu3 hsv3 hs
    · intro hne
      simp only [generate_subject_cooccurrence, if_neg hew] at hne ⊢
      have hso : subjOrder ≠ [] := by
        intro hnil
        rw [hnil] at hne
        simp at hne
      obtain ⟨t0, ts, hss⟩ : ∃ t0 ts, List.insertionSort (fun a b =>
          alookupD b (degStr (edgeWeights (buildIndexes records).1)).2 0 ≤
            alookupD a (degStr (edgeWeights (buildIndexes records).1)).2 0) subjOrder =
          t0 :: ts := by
        cases hx : List.insertionSort (fun a b =>
            alookupD b (degStr (edgeWeights (buildIndexes records).1)).2 0 ≤
              alookupD a (degStr (edgeWeights (buildIndexes records).1)).2 0) subjOrder with
        | nil =>
          exfalso
          have hperm := List.perm_insertionSort (fun a b =>
            alookupD b (degStr (edgeWeights (buildIndexes records).1)).2 0 ≤
              alookupD a (degStr (edgeWeights (buildIndexes records).1)).2 0) subjOrder
          rw [hx] at hperm
          exact hso hperm.symm.eq_nil
        | cons a b => exact ⟨a, b, rfl⟩
      have ht0 : t0 ∈ List.insertionSort (fun a b =>
          alookupD b (degStr (edgeWeights (buildIndexes records).1)).2 0 ≤
            alookupD a (degStr (edgeWeights (buildIndexes records).1)).2 0) subjOrder := by
        rw [hss]
        exact List.mem_cons_self _ _
      have ht0o : t0 ∈ subjOrder :=
        (List.perm_insertionSort _ subjOrder).mem_iff.mp ht0
      refine ⟨_, List.mem_map_of_mem _ ht0o, ?_⟩
      simp only
      rw [alookupD, alookup_prio _ _ ht0, hss]
      simp [List.indexOf_cons_self]

end SubjectCooc

namespace BuildNetworks

open IWAC

/-- Counterexample for C7: (i) in `generate_references_subject_cooccurrence.py` the
label priority is the 0-based sort index (`for idx, subject in enumerate(...)`), so
with three subjects of distinct strengths the strongest gets priority 0 — priorities
are not the claimed 1-based ranks; (ii) in `build_networks.py` the sort key is the
score alone, so two nodes tied on the score keep their input order: here `o:2`
precedes `p:1` in id order yet receives the larger priority — ties are not broken by
node-id comparison. -/
theorem labelPriority_rank_counterexample :
    ¬ (∀ n ∈ (SubjectCooc.generate_subject_cooccurrence (fun s => "subject:" ++ s)
          ["A", "B", "C"]
          [⟨some "A|B", "1"⟩, ⟨some "A|B", "2"⟩, ⟨some "A|C", "3"⟩] "now").nodes,
        1 ≤ n.labelPriority) ∧
    ¬ (∀ u ∈ (buildNetworks
          [("a1", [("person", ["p:1"]), ("organization", ["o:2"])]),
           ("a2", [("person", ["p:1"]), ("organization", ["o:2"])])]
          [("p:1", ⟨"p:1", "person", "P", 5⟩), ("o:2", ⟨"o:2", "organization", "O", 5⟩)]
          [("person", "organization")] false 2 60 ["p:1", "o:2"] "t").nodes,
        ∀ v ∈ (buildNetworks
          [("a1", [("person", ["p:1"]), ("organization", ["o:2"])]),
           ("a2", [("person", ["p:1"]), ("organization", ["o:2"])])]
          [("p:1", ⟨"p:1", "person", "P", 5⟩), ("o:2", ⟨"o:2", "organization", "O", 5⟩)]
          [("person", "organization")] false 2 60 ["p:1", "o:2"] "t").nodes,
          score u = score v → strLtB u.id v.id = true →
            u.labelPriority < v.labelPriority) := by
  with_unfolding_all decide

/-- C7 (amended): in `build_networks.py` `labelPriority` is the 1-based rank of the
node under the score `degree*3 + count` in descending order — every priority is at
least 1 and a strictly higher score yields a strictly smaller priority — but ties on
the score keep the stable sort's input order rather than a node-id order; in
`generate_references_subject_cooccurrence.py` the priority is the 0-based rank under
strength descending: a strictly stronger subject gets a strictly smaller priority
and, whenever any node exists, some node has priority 0. -/
theorem labelPriority_rank_assignment
    (articles : List (String × List (String × List String)))
    (nodeInfo : List (String × NodeInfo)) (typePairs : List (String × String))
    (noCrossOnly : Bool) (weightMin : ℤ) (topLabels : ℕ)
    (usedOrder : List String) (utcNowIso : String)
    (mkId : String → String) (subjOrder : List String)
    (records : List SubjectCooc.Record) (nowIso : String) :
    (∀ n ∈ (buildNetworks articles nodeInfo typePairs noCrossOnly weightMin topLabels
        usedOrder utcNowIso).nodes, 1 ≤ n.labelPriority) ∧
    (∀ u ∈ (buildNetworks articles nodeInfo typePairs noCrossOnly weightMin topLabels
        usedOrder utcNowIso).nodes,
      ∀ v ∈ (buildNetworks articles nodeInfo typePairs noCrossOnly weightMin topLabels
        usedOrder utcNowIso).nodes,
        score v < score u → u.labelPriority < v.labelPriority) ∧
    (∀ u ∈ (SubjectCooc.generate_subject_cooccurrence mkId subjOrder records
        nowIso).nodes,
      ∀ v ∈ (SubjectCooc.generate_subject_cooccurrence mkId subjOrder records
        nowIso).nodes,
        v.strength < u.strength → u.labelPriority < v.labelPriority) ∧
    ((SubjectCooc.generate_subject_cooccurrence mkId subjOrder records
        nowIso).nodes ≠ [] →
      ∃ u ∈ (SubjectCooc.generate_subject_cooccurrence mkId subjOrder records
        nowIso).nodes, u.labelPriority = 0) := by
  refine ⟨?_, ?_,
    (SubjectCooc.subject_priority_zero_based_ranks mkId subjOrder records nowIso).1,
    (SubjectCooc.subject_priority_zero_based_ranks mkId subjOrder records nowIso).2⟩
  · intro n hn
    simp only [buildNetworks] at hn
    exact rankNodes_priority_pos _ n hn
  · intro u hu v hv hs
    simp only [buildNetworks] at hu hv
    exact rankNodes_score_mono _ u hu v hv hs

/-- Witness for C7's amended theorem: on three subjects of strengths 3, 2, 1 the
existence clause applies, its nonemptiness hypothesis discharged by evaluation. -/
theorem labelPriority_rank_assignment_witness :
    ∃ u ∈ (SubjectCooc.generate_subject_cooccurrence (fun s => "subject:" ++ s)
        ["A", "B", "C"]
        [⟨some "A|B", "1"⟩, ⟨some "A|B", "2"⟩, ⟨some "A|C", "3"⟩] "now").nodes,
      u.labelPriority = 0 :=
  (labelPriority_rank_assignment [] [] [] false 2 60 [] "t"
      (fun s => "subject:" ++ s) ["A", "B", "C"]
      [⟨some "A|B", "1"⟩, ⟨some "A|B", "2"⟩, ⟨some "A|C", "3"⟩] "now").2.2.2
    (by with_unfolding_all decide)

end BuildNetworks

namespace BuildNetworks

/-- Counterexample for C8: when zero pairs survive pruning, `build_networks.py` sets
`min_w = max_w = 1` (line 213), so the emitted `weightMinActual`/`weightMax` are not
zero as claimed. -/
theorem empty_graph_nonzero_weight_meta_counterexample :
    (buildNetworks [] [] [] false 2 60 [] "t").edges = [] ∧
    ¬ ((buildNetworks [] [] [] false 2 60 [] "t").meta.weightMinActual = 0 ∧
       (buildNetworks [] [] [] false 2 60 [] "t").meta.weightMax = 0) := by
  with_unfolding_all decide

/-- C8 (amended): when zero pairs survive pruning (given the invariant that `used_ids`
is then empty), `build_networks.py` still returns a well-formed graph with
`nodes = []`, `edges = []`, zero totals and zero degree/strength statistics, but its
`weightMinActual` and `weightMax` are 1, not 0; the subject variant's empty branch
(`generate_references_subject_cooccurrence.py` lines 89–107) does return the fully
zeroed empty object. -/
theorem buildNetworks_empty_graph
    (articles : List (String × List (String × List String)))
    (nodeInfo : List (String × NodeInfo)) (typePairs : List (String × String))
    (noCrossOnly : Bool) (weightMin : ℤ) (topLabels : ℕ)
    (usedOrder : List String) (utcNowIso : String)
    (mkId : String → String) (subjOrder : List String)
    (records : List SubjectCooc.Record) (nowIso : String)
    (hre : retainedEdges articles typePairs noCrossOnly weightMin = [])
    (hus : usedOrder = []) :
    (buildNetworks articles nodeInfo typePairs noCrossOnly weightMin topLabels
        usedOrder utcNowIso).nodes = [] ∧
    (buildNetworks articles nodeInfo typePairs noCrossOnly weightMin topLabels
        usedOrder utcNowIso).edges = [] ∧
    (buildNetworks articles nodeInfo typePairs noCrossOnly weightMin topLabels
        usedOrder utcNowIso).meta.totalNodes = 0 ∧
    (buildNetworks articles nodeInfo typePairs noCrossOnly weightMin topLabels
        usedOrder utcNowIso).meta.totalEdges = 0 ∧
    (buildNetworks articles nodeInfo typePairs noCrossOnly weightMin topLabels
        usedOrder utcNowIso).meta.degreeMin = 0 ∧
    (buildNetworks articles nodeInfo typePairs noCrossOnly weightMin topLabels
        usedOrder utcNowIso).meta.degreeMax = 0 ∧
    (buildNetworks articles nodeInfo typePairs noCrossOnly weightMin topLabels
        usedOrder utcNowIso).meta.degreeMean = 0 ∧
    (buildNetworks articles nodeInfo typePairs noCrossOnly weightMin topLabels
        usedOrder utcNowIso).meta.strengthMin = 0 ∧
    (buildNetworks articles nodeInfo typePairs noCrossOnly weightMin topLabels
        usedOrder utcNowIso).meta.strengthMax = 0 ∧
    (buildNetworks articles nodeInfo typePairs noCrossOnly weightMin topLabels
        usedOrder utcNowIso).meta.strengthMean = 0 ∧
    (buildNetworks articles nodeInfo typePairs noCrossOnly weightMin topLabels
        usedOrder utcNowIso).meta.weightMinActual = 1 ∧
    (buildNetworks articles nodeInfo typePairs noCrossOnly weightMin topLabels
        usedOrder utcNowIso).meta.weightMax = 1 ∧
    (SubjectCooc.edgeWeights (SubjectCooc.buildIndexes records).1 = [] →
      SubjectCooc.generate_subject_cooccurrence mkId subjOrder records nowIso =
        SubjectCooc.emptySOutput) := by
  subst hus
  rw [retainedEdges] at hre
  simp only [buildNetworks, hre, nodesFor, List.filterMap_nil, rankNodes,
    List.enum_nil, List.map_nil, List.length_nil, maxWeight, minWeight,
    if_pos rfl]
  refine ⟨?_, ?_, ?_, ?_, ?_, ?_, ?_, ?_, ?_, ?_, ?_, ?_, ?_⟩ <;>
    first
      | trivial
      | (with_unfolding_all decide)
      | (intro h
         simp only [SubjectCooc.generate_subject_cooccurrence, h, if_pos rfl, if_true])

/-- Witness for C8's amended theorem at the empty corpus: the retained edge list and
the used-id set are empty by evaluation, and both clauses apply. -/
theorem buildNetworks_empty_graph_witness :
    (buildNetworks [] [] [] false 2 60 [] "t").meta.weightMinActual = 1 ∧
    SubjectCooc.generate_subject_cooccurrence (fun s => "s:" ++ s) [] [] "now" =
      SubjectCooc.emptySOutput := by
  have h := buildNetworks_empty_graph [] [] [] false 2 60 [] "t"
    (fun s => "s:" ++ s) [] [] "now" (by with_unfolding_all decide) rfl
  exact ⟨h.2.2.2.2.2.2.2.2.2.2.1,
    h.2.2.2.2.2.2.2.2.2.2.2.2 (by with_unfolding_all decide)⟩

end BuildNetworks

namespace BuildNetworks

open IWAC

/-- Counterexample for C2: with retained weights 2 and 4, `build_networks.py` gives the
lighter edge `weightNorm = round(2/4, 6) = 1/2`, not the claimed
`(2 - 2)/(4 - 2) = 0`; the min–max formula of the claim holds only in
`generate_topic_network.py`. -/
theorem weightNorm_minmax_formula_counterexample :
    ¬ (∀ e ∈ (buildNetworks
          [("a1", [("person", ["p:1"]), ("organization", ["o:2", "o:3"])]),
           ("a2", [("person", ["p:1"]), ("organization", ["o:2", "o:3"])]),
           ("a3", [("person", ["p:1"]), ("organization", ["o:2"])]),
           ("a4", [("person", ["p:1"]), ("organization", ["o:2"])])]
          [] [("person", "organization")] false 2 60 [] "t").edges,
        e.weightNorm =
          if (buildNetworks
              [("a1", [("person", ["p:1"]), ("organization", ["o:2", "o:3"])]),
               ("a2", [("person", ["p:1"]), ("organization", ["o:2", "o:3"])]),
               ("a3", [("person", ["p:1"]), ("organization", ["o:2"])]),
               ("a4", [("person", ["p:1"]), ("organization", ["o:2"])])]
              [] [("person", "organization")] false 2 60 [] "t").meta.weightMax =
            (buildNetworks
              [("a1", [("person", ["p:1"]), ("organization", ["o:2", "o:3"])]),
               ("a2", [("person", ["p:1"]), ("organization", ["o:2", "o:3"])]),
               ("a3", [("person", ["p:1"]), ("organization", ["o:2"])]),
               ("a4", [("person", ["p:1"]), ("organization", ["o:2"])])]
              [] [("person", "organization")] false 2 60 [] "t").meta.weightMinActual
          then (1 : ℚ)
          else ((e.weight : ℚ) - ((buildNetworks
              [("a1", [("person", ["p:1"]), ("organization", ["o:2", "o:3"])]),
               ("a2", [("person", ["p:1"]), ("organization", ["o:2", "o:3"])]),
               ("a3", [("person", ["p:1"]), ("organization", ["o:2"])]),
               ("a4", [("person", ["p:1"]), ("organization", ["o:2"])])]
              [] [("person", "organization")] false 2 60 [] "t").meta.weightMinActual : ℚ)) /
            (((buildNetworks
              [("a1", [("person", ["p:1"]), ("organization", ["o:2", "o:3"])]),
               ("a2", [("person", ["p:1"]), ("organization", ["o:2", "o:3"])]),
               ("a3", [("person", ["p:1"]), ("organization", ["o:2"])]),
               ("a4", [("person", ["p:1"]), ("organization", ["o:2"])])]
              [] [("person", "organization")] false 2 60 [] "t").meta.weightMax : ℚ) -
             ((buildNetworks
              [("a1", [("person", ["p:1"]), ("organization", ["o:2", "o:3"])]),
               ("a2", [("person", ["p:1"]), ("organization", ["o:2", "o:3"])]),
               ("a3", [("person", ["p:1"]), ("organization", ["o:2"])]),
               ("a4", [("person", ["p:1"]), ("organization", ["o:2"])])]
              [] [("person", "organization")] false 2 60 [] "t").meta.weightMinActual : ℚ))) := by
  with_unfolding_all decide

/-- C2 (amended): in `build_networks.py` every emitted edge's `weightNorm` is
`round(weight / max_w, 6)` over the retained edges (0 if `max_w` were 0, which the
empty fallback `max_w = 1` prevents) — a max-only normalisation, not the claimed
min–max one; the min–max formula with the 1.0 tie fallback is what
`generate_topic_network.py` computes (rounded to 4 digits). -/
theorem edge_weightNorm_formula
    (articles : List (String × List (String × List String)))
    (nodeInfo : List (String × NodeInfo)) (typePairs : List (String × String))
    (noCrossOnly : Bool) (weightMin : ℤ) (topLabels : ℕ)
    (usedOrder : List String) (utcNowIso : String)
    (pyHash : String → ℤ) (articlesPerTopic : ℕ) (minProb : ℚ)
    (topicsSummary : List TopicNetwork.TopicSummary)
    (topicDocs : List (ℤ × List TopicNetwork.Doc)) (nowIso : String) :
    (∀ e ∈ (buildNetworks articles nodeInfo typePairs noCrossOnly weightMin topLabels
        usedOrder utcNowIso).edges,
      e.weightNorm =
        if maxWeight (retainedEdges articles typePairs noCrossOnly weightMin) ≠ 0 then
          roundQ 6 ((e.weight : ℚ) /
            (maxWeight (retainedEdges articles typePairs noCrossOnly weightMin) : ℚ))
        else 0) ∧
    (∀ o, TopicNetwork.build_topic_network pyHash articlesPerTopic minProb
        topicsSummary topicDocs nowIso = some o →
      ∀ e ∈ o.edges,
        e.weightNorm =
          if IWAC.ratMin (o.edges.map (fun x => x.weight)) <
              IWAC.ratMax (o.edges.map (fun x => x.weight)) then
            roundQ 4 ((e.weight - IWAC.ratMin (o.edges.map (fun x => x.weight))) /
              (IWAC.ratMax (o.edges.map (fun x => x.weight)) -
                IWAC.ratMin (o.edges.map (fun x => x.weight))))
          else 1) := by
  constructor
  · intro e he
    simp only [buildNetworks] at he
    rw [retainedEdges]
    rcases List.mem_map.mp he with ⟨e0, he0, rfl⟩
    rfl
  · intro o ho e he
    simp only [TopicNetwork.build_topic_network] at ho
    by_cases hts : topicsSummary = []
    · rw [if_pos hts] at ho
      cases ho
    · rw [if_neg hts] at ho
      have ho' := Option.some.inj ho
      subst ho'
      simp only at he ⊢
      by_cases hse : (topicsSummary.foldl (fun (st : TopicNetwork.TState) ts =>
          if ts.tid = -1 then st
          else
            match IWAC.alookup ts.tid topicDocs with
            | none => st
            | some docs =>
              let topicNodeId := "topic:" ++ toString ts.tid
              let docsSorted :=
                (List.insertionSort (fun d1 d2 : TopicNetwork.Doc =>
                  d2.topicProb ≤ d1.topicProb) docs).take articlesPerTopic
              let r := TopicNetwork.processDocs pyHash minProb ts.tid topicNodeId
                docsSorted st.seen
              let topicNode :=
                TopicNetwork.TNode.topic topicNodeId ts.label ts.count
                  (TopicNetwork.extractKeywords ts.label) r.deg (roundQ 2 r.strengthSum) 1
              { nodes := st.nodes ++ [topicNode] ++ r.articleNodes
                edges := st.edges ++ r.edges
                seen := r.seen
                probs := st.probs ++ r.probs
                topicCount := st.topicCount + 1
                articleCount := st.articleCount + r.articleNodes.length })
          { nodes := [], edges := [], seen := [], probs := [], topicCount := 0,
            articleCount := 0 }).edges = []
      · rw [if_pos hse] at he ⊢
        rw [hse] at he
        exact absurd he (List.not_mem_nil _)
      · rw [if_neg hse] at he ⊢
        rw [List.map_map]
        rcases List.mem_map.mp he with ⟨e0, he0, rfl⟩
        rfl

/-- Witness for C2's amended theorem: a run with one retained edge of weight 2 (so
`max_w = 2`), whose `weightNorm` is `round(2/2, 6) = 1`; the membership hypothesis is
discharged by evaluation. -/
theorem edge_weightNorm_formula_witness :
    (EdgeOut.mk "o:2" "p:1" "person-organization" 2 1 ["a1", "a2"]).weightNorm =
      if maxWeight (retainedEdges
          [("a1", [("person", ["p:1"]), ("organization", ["o:2"])]),
           ("a2", [("person", ["p:1"]), ("organization", ["o:2"])])]
          [("person", "organization")] false 2) ≠ 0 then
        roundQ 6 (((EdgeOut.mk "o:2" "p:1" "person-organization" 2 1
            ["a1", "a2"]).weight : ℚ) /
          (maxWeight (retainedEdges
            [("a1", [("person", ["p:1"]), ("organization", ["o:2"])]),
             ("a2", [("person", ["p:1"]), ("organization", ["o:2"])])]
            [("person", "organization")] false 2) : ℚ))
      else 0 := by
  have h := (edge_weightNorm_formula
    [("a1", [("person", ["p:1"]), ("organization", ["o:2"])]),
     ("a2", [("person", ["p:1"]), ("organization", ["o:2"])])]
    [] [("person", "organization")] false 2 60 [] "t"
    (fun x => 0) 50 (3 / 10) [] [] "now").1
  exact h (EdgeOut.mk "o:2" "p:1" "person-organization" 2 1 ["a1", "a2"])
    (by with_unfolding_all decide)

end BuildNetworks

namespace BuildNetworks

/-- Counterexample for C1: two runs on identical corpus/catalog/config differ — in
`build_networks.py` because `meta.generatedAt` embeds the wall clock, and in
`generate_references_subject_cooccurrence.py` because the node list follows the
iteration order of the `all_subjects` set (process state). -/
theorem generatedAt_clock_counterexample :
    buildNetworks [] [] [] false 2 60 [] "2025-01-01T00:00:00" ≠
      buildNetworks [] [] [] false 2 60 [] "2025-01-01T00:00:01" ∧
    SubjectCooc.generate_subject_cooccurrence (fun s => "s:" ++ s) ["A", "B"]
        [⟨some "A|B", "1"⟩] "t" ≠
      SubjectCooc.generate_subject_cooccurrence (fun s => "s:" ++ s) ["B", "A"]
        [⟨some "A|B", "1"⟩] "t" := by
  with_unfolding_all decide

/-- C1 (amended): the output is a pure function of the explicit inputs once the wall
clock and the set-iteration orders are counted among them, and the clock flows only
into `meta.generatedAt`: two runs differing only in the clock agree on nodes, edges
and every other meta field, and in the subject variant two runs differing only in the
timestamp agree on nodes and edges. -/
theorem output_determined_by_inputs_except_clock
    (articles : List (String × List (String × List String)))
    (nodeInfo : List (String × NodeInfo)) (typePairs : List (String × String))
    (noCrossOnly : Bool) (weightMin : ℤ) (topLabels : ℕ)
    (usedOrder : List String) (t1 t2 : String)
    (mkId : String → String) (subjOrder : List String)
    (records : List SubjectCooc.Record) (n1 n2 : String) :
    (buildNetworks articles nodeInfo typePairs noCrossOnly weightMin topLabels
        usedOrder t1).nodes =
      (buildNetworks articles nodeInfo typePairs noCrossOnly weightMin topLabels
        usedOrder t2).nodes ∧
    (buildNetworks articles nodeInfo typePairs noCrossOnly weightMin topLabels
        usedOrder t1).edges =
      (buildNetworks articles nodeInfo typePairs noCrossOnly weightMin topLabels
        usedOrder t2).edges ∧
    { (buildNetworks articles nodeInfo typePairs noCrossOnly weightMin topLabels
        usedOrder t1).meta with generatedAt := "" } =
      { (buildNetworks articles nodeInfo typePairs noCrossOnly weightMin topLabels
        usedOrder t2).meta with generatedAt := "" } ∧
    (buildNetworks articles nodeInfo typePairs noCrossOnly weightMin topLabels
        usedOrder t1).meta.generatedAt = t1 ++ "Z" ∧
    (SubjectCooc.generate_subject_cooccurrence mkId subjOrder records n1).nodes =
      (SubjectCooc.generate_subject_cooccurrence mkId subjOrder records n2).nodes ∧
    (SubjectCooc.generate_subject_cooccurrence mkId subjOrder records n1).edges =
      (SubjectCooc.generate_subject_cooccurrence mkId subjOrder records n2).edges := by
  refine ⟨rfl, rfl, rfl, rfl, ?_, ?_⟩
  · by_cases hew : SubjectCooc.edgeWeights (SubjectCooc.buildIndexes records).1 = []
    · simp only [SubjectCooc.generate_subject_cooccurrence, hew, if_pos rfl, if_true]
    · simp only [SubjectCooc.generate_subject_cooccurrence, if_neg hew]
  · by_cases hew : SubjectCooc.edgeWeights (SubjectCooc.buildIndexes records).1 = []
    · simp only [SubjectCooc.generate_subject_cooccurrence, hew, if_pos rfl, if_true]
    · simp only [SubjectCooc.generate_subject_cooccurrence, if_neg hew]

/-- Witness for C1's amended theorem at concrete runs: the clock lands in
`generatedAt` verbatim (plus the trailing `Z`), and the subject nodes agree across
timestamps. -/
theorem output_determined_by_inputs_except_clock_witness :
    (buildNetworks [] [] [] false 2 60 [] "t1").meta.generatedAt = "t1" ++ "Z" ∧
    (SubjectCooc.generate_subject_cooccurrence (fun s => "s:" ++ s) ["A", "B"]
        [⟨some "A|B", "1"⟩] "x").nodes =
      (SubjectCooc.generate_subject_cooccurrence (fun s => "s:" ++ s) ["A", "B"]
        [⟨some "A|B", "1"⟩] "y").nodes := by
  have h := output_determined_by_inputs_except_clock [] [] [] false 2 60 [] "t1" "t2"
    (fun s => "s:" ++ s) ["A", "B"] [⟨some "A|B", "1"⟩] "x" "y"
  exact ⟨h.2.2.2.1, h.2.2.2.2.1⟩

end BuildNetworks
